import Mathlib

/-!
# Game of Life: the stepper and its termination policy

A shallow embedding of `src/main.cpp`.

* `Grid` is `std::vector<std::vector<bool>>`: a list of rows, each a list of cells.
* `int` values are embedded as `Int`. The sizes of the vectors are taken to fit in
  `int` (the grid of `main` is 30 by 40), and every index the loops form lies
  between `-1` and the size of the vector it indexes, so no conversion or addition
  wraps.
* An element access `v[i]` outside the bounds of `v` has no defined result in the
  source; the embedding returns `none` there, so every function that indexes a
  vector returns an `Option`.
* `std::string` is `String`, `std::set<std::string>` is `Finset String`.
* The local variables of `main` form the record `State`; one pass of the event
  loop body is `handleEvent`, one pass of the timer block is `tick`.
-/

namespace GameOfLife

/-! ## Data model -/

/-- The source's `using Grid = std::vector<std::vector<bool>>`. -/
abbrev Grid := List (List Bool)

def WINDOW_WIDTH : Int := 800

def WINDOW_HEIGHT : Int := 600

def GRID_SPACING : Int := 20

/-- The element read `grid[y][x]` with `int` indices; `none` when either index is
outside its vector. -/
def readCell (grid : Grid) (y x : Int) : Option Bool :=
  if 0 ≤ y ∧ 0 ≤ x then
    match grid[y.toNat]? with
    | none => none
    | some r => r[x.toNat]?
  else none

/-- The element write `grid[y][x] = v` with `int` indices; `none` when either index
is outside its vector. -/
def writeCell (grid : Grid) (y x : Int) (v : Bool) : Option Grid :=
  if 0 ≤ y ∧ 0 ≤ x then
    match grid[y.toNat]? with
    | none => none
    | some r =>
      if x.toNat < r.length then some (grid.set y.toNat (r.set x.toNat v)) else none
  else none

/-- The loop `for (int i = 0; i < n; ++i) body(i)` over a state `σ`, where the body
may hit an undefined access. -/
def forUpTo {σ : Type} (n : Int) (body : Int → σ → Option σ) (s : σ) : Option σ :=
  (List.range n.toNat).foldlM (fun acc (i : Nat) => body (Int.ofNat i) acc) s

/-- The values taken by `dy` and by `dx` in `for (int d = -1; d <= 1; ++d)`. -/
def deltas : List Int := [-1, 0, 1]

/-! ## The functions of `main.cpp` -/

/-- The body of the inner loop of `countLiveNeighbors` (lines 21-26). -/
def neighborBody (grid : Grid) (rows cols row col dy : Int) (liveCount dx : Int) :
    Option Int :=
  if dy = 0 ∧ dx = 0 then some liveCount
  else
    let y := row + dy
    let x := col + dx
    if 0 ≤ y ∧ y < rows ∧ 0 ≤ x ∧ x < cols then
      match readCell grid y x with
      | none => none
      | some b => some (if b then liveCount + 1 else liveCount)
    else some liveCount

/-- The source's `countLiveNeighbors` (lines 14-30). -/
def countLiveNeighbors (grid : Grid) (row col : Int) : Option Int :=
  match grid[0]? with
  | none => none
  | some first =>
    let rows : Int := grid.length
    let cols : Int := first.length
    deltas.foldlM
      (fun liveCount dy =>
        deltas.foldlM (fun acc dx => neighborBody grid rows cols row col dy acc dx) liveCount)
      0

/-- The body of the inner loop of `updateGrid` (lines 39-44): `grid` is read,
`next` is written. -/
def updateBody (grid : Grid) (row col : Int) (next : Grid) : Option Grid :=
  match countLiveNeighbors grid row col with
  | none => none
  | some liveNeighbors =>
    match readCell grid row col with
    | none => none
    | some true => writeCell next row col (liveNeighbors == 2 || liveNeighbors == 3)
    | some false => writeCell next row col (liveNeighbors == 3)

/-- The source's `updateGrid` (lines 32-49); the result is the value assigned to
`grid` by `grid = next`. -/
def updateGrid (grid : Grid) : Option Grid :=
  match grid[0]? with
  | none => none
  | some first =>
    let rows : Int := grid.length
    let cols : Int := first.length
    forUpTo rows (fun row next => forUpTo cols (fun col acc => updateBody grid row col acc) next)
      grid

/-- The source's `gridToString` (lines 51-59). -/
def gridToString (grid : Grid) : String :=
  grid.foldl (fun s row => row.foldl (fun t cell => t.push (if cell then '1' else '0')) s) ""

/-- The inner loop of `isEmpty` (lines 63-65): `true` when it reaches `return false`. -/
def rowHasLive : List Bool → Bool
  | [] => false
  | cell :: rest => if cell then true else rowHasLive rest

/-- The source's `isEmpty` (lines 61-68). -/
def isEmpty : Grid → Bool
  | [] => true
  | row :: rest => if rowHasLive row then false else isEmpty rest

/-! ## The main loop -/

/-- The local variables of `main` that the event loop and the timer block read or
write, and the text written to `std::cout`. -/
structure State where
  filled : Grid
  quit : Bool
  running : Bool
  mouseDown : Bool
  stopped : Bool
  previousStates : Finset String
  output : List String

/-- The events `main` distinguishes; `isReturn` is `e.key.keysym.sym == SDLK_RETURN`,
`isLeft` is `e.button.button == SDL_BUTTON_LEFT`. -/
inductive Event where
  | quitEvent
  | keyDown (isReturn : Bool)
  | mouseButtonDown (isLeft : Bool)
  | mouseButtonUp (isLeft : Bool)
  | mouseMotion (x y : Int)
  | other

def startedMsg : String := "Simulation started.\n"

def loopMsg : String := "Pattern entered a loop. Simulation stopped.\n"

def emptyMsg : String := "No live cells remain. Simulation stopped.\n"

/-- The `cols` of `main` (line 94). -/
def main.cols : Int := Int.tdiv WINDOW_WIDTH GRID_SPACING

/-- The `rows` of `main` (line 95). -/
def main.rows : Int := Int.tdiv WINDOW_HEIGHT GRID_SPACING

/-- The state at line 106, before the first pass of the loop, for a grid of
`rows` by `cols` cells. -/
def initState (rows cols : Nat) : State :=
  { filled := List.replicate rows (List.replicate cols false)
    quit := false
    running := false
    mouseDown := false
    stopped := false
    previousStates := ∅
    output := [] }

/-- One pass of the body of `while (SDL_PollEvent(&e))` (lines 108-125), with the
`rows` and `cols` of `main`. -/
def handleEvent (rows cols : Int) (s : State) : Event → Option State
  | Event.quitEvent => some { s with quit := true }
  | Event.keyDown isReturn =>
    if isReturn ∧ s.running = false then
      some { s with running := true, output := s.output ++ [startedMsg] }
    else some s
  | Event.mouseButtonDown isLeft =>
    if isLeft ∧ s.running = false then some { s with mouseDown := true }
    else some s
  | Event.mouseButtonUp isLeft =>
    if isLeft then some { s with mouseDown := false }
    else some s
  | Event.mouseMotion x y =>
    if s.mouseDown = true ∧ s.running = false then
      let col := Int.tdiv x GRID_SPACING
      let row := Int.tdiv y GRID_SPACING
      if 0 ≤ row ∧ row < rows ∧ 0 ≤ col ∧ col < cols then
        (writeCell s.filled row col true).map (fun g => { s with filled := g })
      else some s
    else some s
  | Event.other => some s

/-- One pass of the timer block (lines 128-144) at a moment when more than 200 ms
have passed since `lastUpdate`. -/
def tick (s : State) : Option State :=
  if s.running = true ∧ s.stopped = false then
    let current := gridToString s.filled
    if current ∈ s.previousStates then
      some { s with output := s.output ++ [loopMsg], stopped := true }
    else if isEmpty s.filled = true then
      some { s with output := s.output ++ [emptyMsg], stopped := true }
    else
      match updateGrid s.filled with
      | none => none
      | some next => some { s with previousStates := insert current s.previousStates,
                                   filled := next }
  else some s

/-- The state after `n` timer ticks with no event in between. -/
def runTicks : Nat → State → Option State
  | 0, s => some s
  | n + 1, s =>
    match tick s with
    | none => none
    | some t => runTicks n t

/-- Generation `i` of `g0`: `updateGrid` applied `i` times. -/
def generation (g0 : Grid) : Nat → Option Grid
  | 0 => some g0
  | i + 1 =>
    match generation g0 i with
    | none => none
    | some g => updateGrid g

/-! ## Vocabulary of the statements -/

/-- A grid of `rows` rows that all have `cols` cells. -/
def Rect (g : Grid) (rows cols : Nat) : Prop :=
  g.length = rows ∧ ∀ r ∈ g, r.length = cols

instance (g : Grid) (rows cols : Nat) : Decidable (Rect g rows cols) := by
  unfold Rect; infer_instance

/-- The cell in row `r`, column `c`; `false` outside the grid. -/
def cellAt (g : Grid) (r c : Nat) : Bool :=
  match g[r]? with
  | none => false
  | some row => row[c]?.getD false

/-- The grid of `rows` by `cols` cells whose cell `(r, c)` is `f r c`. -/
def tabulate (rows cols : Nat) (f : Nat → Nat → Bool) : Grid :=
  (List.range rows).map (fun r => (List.range cols).map (fun c => f r c))

/-- The rule of lines 40-44: the next state of a cell from its state and its count. -/
def lifeRule (alive : Bool) (liveNeighbors : Int) : Bool :=
  if alive then (liveNeighbors == 2 || liveNeighbors == 3) else liveNeighbors == 3

/-- The next state of cell `(r, c)` of `g` by the rule, from the count taken on `g`. -/
def nextCell (g : Grid) (r c : Nat) : Bool :=
  lifeRule (cellAt g r c) ((countLiveNeighbors g (Int.ofNat r) (Int.ofNat c)).getD 0)

/-- The eight positions around a cell, as `(dy, dx)`. -/
def neighborOffsets : List (Int × Int) :=
  [(-1, -1), (-1, 0), (-1, 1), (0, -1), (0, 1), (1, -1), (1, 0), (1, 1)]

/-- The count the specification describes: the number of the eight positions
`(r + dy, c + dx)` that lie inside the grid and hold a live cell. -/
def liveNeighborsSpec (g : Grid) (r c : Int) : Nat :=
  neighborOffsets.countP (fun d => readCell g (r + d.1) (c + d.2) == some true)

/-- A 3 by 3 grid holding a horizontal blinker. -/
def exampleBlinker : Grid := [[false, false, false], [true, true, true], [false, false, false]]

/-- A 2 by 3 grid with no live cell. -/
def exampleDead : Grid := [[false, false, false], [false, false, false]]

/-- The character `gridToString` appends for a cell (line 55). -/
def cellChar (cell : Bool) : Char := if cell then '1' else '0'

/-- A 3 by 3 grid holding a vertical blinker. -/
def exampleVertical : Grid := [[false, true, false], [false, true, false], [false, true, false]]

/-- A run just started on `exampleBlinker`: running, not stopped, empty history. -/
def exampleRunning : State :=
  { filled := exampleBlinker
    quit := false
    running := true
    mouseDown := false
    stopped := false
    previousStates := ∅
    output := [] }

/-- The key of generation `i`, for the history after `k` ticks. -/
def generationKey (g0 : Grid) (i : Nat) : String :=
  gridToString ((generation g0 i).getD [])

/-- What one pass of the main loop may do to the state: handle one polled event, or
run the timer block. -/
inductive Input where
  | event (e : Event)
  | timer

/-- The effect of one input on the state, with the `rows` and `cols` of `main`. -/
def step (rows cols : Int) (s : State) : Input → Option State
  | Input.event e => handleEvent rows cols s e
  | Input.timer => tick s

/-- The state after a sequence of inputs, first input first. -/
def runInputs (rows cols : Int) : List Input → State → Option State
  | [], s => some s
  | i :: rest, s =>
    match step rows cols s i with
    | none => none
    | some t => runInputs rows cols rest t

/-- The number of timer ticks in a sequence of inputs. -/
def tickCount : List Input → Nat
  | [] => 0
  | Input.timer :: rest => tickCount rest + 1
  | Input.event _ :: rest => tickCount rest

/-- The grid of `rows` by `cols` cells whose cell `(i, j)` is `P (i - r) (j - c)`: the
pattern `P`, given relative to a centre, placed with its centre at `(r, c)`. -/
def patternGrid (rows cols : Nat) (r c : Int) (P : Int → Int → Bool) : Grid :=
  tabulate rows cols (fun i j => P ((i : Int) - r) ((j : Int) - c))

/-- Three cells in a row, relative to the middle one. -/
def horizontalTriple (a b : Int) : Bool := decide (a = 0 ∧ -1 ≤ b ∧ b ≤ 1)

/-- Three cells in a column, relative to the middle one. -/
def verticalTriple (a b : Int) : Bool := decide (b = 0 ∧ -1 ≤ a ∧ a ≤ 1)

/-- The number of live cells of the pattern `P` around the relative position `(a, b)`. -/
def patternCount (P : Int → Int → Bool) (a b : Int) : Nat :=
  neighborOffsets.countP (fun d => P (a + d.1) (b + d.2))

/-- One cell, relative to itself. -/
def singleCell (a b : Int) : Bool := decide (a = 0 ∧ b = 0)

/-- The pattern with no live cell. -/
def noCell (_ _ : Int) : Bool := false

/-- A 3 by 3 grid whose only live cell is the corner `(0, 2)`. -/
def exampleCorner : Grid := [[false, false, true], [false, false, false], [false, false, false]]

/-- A grid whose second row is shorter than its first. -/
def exampleRagged : Grid := [[true], []]

/-- A 4 by 4 grid holding a 2 by 2 block. -/
def exampleBlock : Grid :=
  [[false, false, false, false], [false, true, true, false], [false, true, true, false],
   [false, false, false, false]]

/-- A run just started on `exampleBlock`. -/
def exampleBlockRun : State :=
  { filled := exampleBlock
    quit := false
    running := true
    mouseDown := false
    stopped := false
    previousStates := ∅
    output := [] }

/-- The grid with every row reversed. -/
def mirror (g : Grid) : Grid := g.map List.reverse

/-- A 2 by 3 grid with no left-right symmetry. -/
def exampleSkew : Grid := [[true, true, false], [true, false, false]]

/-- What holds of the state in every pass of the main loop, for a grid of `rows` by
`cols` cells: the grid keeps its dimensions, `stopped` implies `running`, the history
is empty while editing, every recorded key has a `'1'`, and the history holds exactly
the keys of the generations stepped so far. -/
def Inv (rows cols : Nat) (s : State) : Prop :=
  Rect s.filled rows cols ∧
  (s.stopped = true → s.running = true) ∧
  (s.running = false → s.previousStates = ∅) ∧
  (∀ k ∈ s.previousStates, '1' ∈ k.data) ∧
  ∃ g0 n, generation g0 n = some s.filled ∧
    ∀ k, k ∈ s.previousStates ↔
      ∃ i gi, i < n ∧ generation g0 i = some gi ∧ gridToString gi = k

/-- An editing state on `exampleBlinker` with the button held. -/
def examplePainting : State :=
  { filled := exampleBlinker
    quit := false
    running := false
    mouseDown := true
    stopped := false
    previousStates := ∅
    output := [] }

/-- The inputs of a short session: paint one cell, start the run, two ticks; the lone
cell dies and the run stops on the empty grid. -/
def exampleSession : List Input :=
  [Input.event (Event.mouseButtonDown true), Input.event (Event.mouseMotion 45 5),
   Input.event (Event.mouseButtonUp true), Input.event (Event.keyDown true),
   Input.timer, Input.timer]

/-- The state `exampleSession` ends in. -/
def exampleStopped : State :=
  { filled := [[false, false, false], [false, false, false], [false, false, false]]
    quit := false
    running := true
    mouseDown := false
    stopped := true
    previousStates := {"001000000"}
    output := [startedMsg, emptyMsg] }

/-- The inputs of `exampleSession` up to the first tick: the lone cell has been stepped
away and its key recorded, the run is not yet stopped. -/
def exampleExtinctSession : List Input :=
  [Input.event (Event.mouseButtonDown true), Input.event (Event.mouseMotion 45 5),
   Input.event (Event.mouseButtonUp true), Input.event (Event.keyDown true), Input.timer]

/-- The state `exampleExtinctSession` ends in. -/
def exampleExtinct : State :=
  { filled := [[false, false, false], [false, false, false], [false, false, false]]
    quit := false
    running := true
    mouseDown := false
    stopped := false
    previousStates := {"001000000"}
    output := [startedMsg] }

/-! ## Reads, writes and loops on rectangular grids -/

theorem forUpTo_steps {σ : Type} (n : Nat) (body : Int → σ → Option σ) (P : Nat → σ)
    (h : ∀ j, j < n → body (j : Int) (P j) = some (P (j + 1))) :
    forUpTo (n : Int) body (P 0) = some (P n) := by
  unfold forUpTo
  rw [Int.toNat_ofNat]
  induction n with
  | zero => rfl
  | succ k ih =>
    rw [List.range_succ, List.foldlM_append, ih (fun j hj => h j (Nat.lt_succ_of_lt hj))]
    simpa [List.foldlM] using h k (Nat.lt_succ_self k)

theorem tabulate_length (rows cols : Nat) (f : Nat → Nat → Bool) :
    (tabulate rows cols f).length = rows := by
  simp [tabulate]

theorem tabulate_getElem? (rows cols : Nat) (f : Nat → Nat → Bool) (r : Nat) :
    (tabulate rows cols f)[r]? =
      if r < rows then some ((List.range cols).map (fun c => f r c)) else none := by
  unfold tabulate
  by_cases h : r < rows
  · simp [h, List.getElem?_range]
  · simp [h]
    omega

theorem tabulate_rect (rows cols : Nat) (f : Nat → Nat → Bool) :
    Rect (tabulate rows cols f) rows cols := by
  refine ⟨tabulate_length rows cols f, ?_⟩
  intro r hr
  unfold tabulate at hr
  simp only [List.mem_map] at hr
  obtain ⟨i, _, rfl⟩ := hr
  simp

theorem tabulate_congr (rows cols : Nat) (f f' : Nat → Nat → Bool)
    (h : ∀ r c, r < rows → c < cols → f r c = f' r c) :
    tabulate rows cols f = tabulate rows cols f' := by
  unfold tabulate
  apply List.map_congr_left
  intro r hr
  apply List.map_congr_left
  intro c hc
  exact h r c (List.mem_range.1 hr) (List.mem_range.1 hc)

theorem cellAt_tabulate (rows cols : Nat) (f : Nat → Nat → Bool) (r c : Nat)
    (hr : r < rows) (hc : c < cols) : cellAt (tabulate rows cols f) r c = f r c := by
  simp [cellAt, tabulate_getElem?, hr, List.getElem?_range, hc]

theorem rect_eq_tabulate (g : Grid) (rows cols : Nat) (h : Rect g rows cols) :
    g = tabulate rows cols (cellAt g) := by
  obtain ⟨hlen, hrow⟩ := h
  apply List.ext_getElem?
  intro r
  rw [tabulate_getElem?]
  by_cases hr : r < rows
  · have hr' : r < g.length := by omega
    simp only [hr, if_true, List.getElem?_eq_getElem hr']
    congr 1
    have hl : (g[r]).length = cols := hrow _ (List.getElem_mem hr')
    apply List.ext_getElem?
    intro c
    by_cases hc : c < cols
    · simp [cellAt, List.getElem?_eq_getElem hr', List.getElem?_range, hc, hl]
    · rw [List.getElem?_eq_none (by omega), List.getElem?_eq_none (by simp; omega)]
  · simp only [hr, if_false]
    exact List.getElem?_eq_none (by omega)

theorem readCell_tabulate (rows cols : Nat) (f : Nat → Nat → Bool) (y x : Int) :
    readCell (tabulate rows cols f) y x =
      if 0 ≤ y ∧ y < rows ∧ 0 ≤ x ∧ x < cols then some (f y.toNat x.toNat) else none := by
  unfold readCell
  by_cases hy : 0 ≤ y
  · by_cases hx : 0 ≤ x
    · by_cases hy' : y < rows
      · have h1 : y.toNat < rows := by omega
        by_cases hx' : x < cols
        · have h2 : x.toNat < cols := by omega
          simp [hy, hx, hy', hx', tabulate_getElem?, h1, List.getElem?_range, h2]
        · have h2 : ¬ x.toNat < cols := by omega
          simp [hy, hx, hy', hx', tabulate_getElem?, h1]
          omega
      · have h1 : ¬ y.toNat < rows := by omega
        simp [hy, hx, hy', tabulate_getElem?, h1]
    · simp [hx]
  · simp [hy]

theorem writeCell_tabulate (rows cols : Nat) (f : Nat → Nat → Bool) (i j : Nat) (v : Bool)
    (hi : i < rows) (hj : j < cols) :
    writeCell (tabulate rows cols f) (Int.ofNat i) (Int.ofNat j) v =
      some (tabulate rows cols (fun r c => if r = i ∧ c = j then v else f r c)) := by
  unfold writeCell
  simp only [Int.ofNat_eq_coe, Int.natCast_nonneg, and_self, if_true, Int.toNat_ofNat,
    tabulate_getElem?, hi, List.length_map, List.length_range, hj]
  congr 1
  apply List.ext_getElem?
  intro r
  rw [List.getElem?_set, tabulate_length, tabulate_getElem?, tabulate_getElem?]
  by_cases hr : i = r
  · subst hr
    simp only [hi, if_true, true_and]
    congr 1
    apply List.ext_getElem?
    intro c
    rw [List.getElem?_set]
    by_cases hc : j = c
    · subst hc
      simp [hj, List.getElem?_range]
    · have hc' : ¬ c = j := fun h => hc h.symm
      by_cases hcc : c < cols
      · simp [hc, hc', List.getElem?_range, hcc]
      · have hn : (List.range cols)[c]? = none :=
          List.getElem?_eq_none (by simp; omega)
        simp [hc, hn]
  · have hr' : ¬ r = i := fun h => hr h.symm
    simp [hr, hr']

/-- In a rectangular grid the guard of line 24 holds exactly where the read is defined. -/
theorem readCell_rect (g : Grid) (rows cols : Nat) (h : Rect g rows cols) (y x : Int) :
    readCell g y x =
      if 0 ≤ y ∧ y < rows ∧ 0 ≤ x ∧ x < cols then some (cellAt g y.toNat x.toNat) else none := by
  conv_lhs => rw [rect_eq_tabulate g rows cols h]
  exact readCell_tabulate rows cols (cellAt g) y x

theorem rect_head (g : Grid) (rows cols : Nat) (h : Rect g rows cols) (hpos : 0 < rows) :
    ∃ first, g[0]? = some first ∧ first.length = cols := by
  obtain ⟨hlen, hrow⟩ := h
  have h0 : 0 < g.length := by omega
  exact ⟨g[0], List.getElem?_eq_getElem h0, hrow _ (List.getElem_mem h0)⟩

theorem neighborBody_rect (g : Grid) (rows cols : Nat) (h : Rect g rows cols)
    (row col dy acc dx : Int) :
    neighborBody g rows cols row col dy acc dx =
      some (acc + if dy = 0 ∧ dx = 0 then 0
                  else if readCell g (row + dy) (col + dx) = some true then 1 else 0) := by
  unfold neighborBody
  by_cases h0 : dy = 0 ∧ dx = 0
  · simp [h0]
  · simp only [h0, if_false]
    rw [readCell_rect g rows cols h]
    by_cases hin : 0 ≤ row + dy ∧ row + dy < rows ∧ 0 ≤ col + dx ∧ col + dx < cols
    · simp only [hin, and_self, if_true]
      cases cellAt g (row + dy).toNat (col + dx).toNat <;> simp
    · simp [hin]

theorem countLiveNeighbors_rect (g : Grid) (rows cols : Nat) (h : Rect g rows cols)
    (hpos : 0 < rows) (row col : Int) :
    countLiveNeighbors g row col = some (liveNeighborsSpec g row col : Int) := by
  obtain ⟨first, hfirst, hlen⟩ := rect_head g rows cols h hpos
  unfold countLiveNeighbors
  rw [hfirst]
  simp only [h.1, hlen, deltas, List.foldlM, neighborBody_rect g rows cols h, Option.bind_eq_bind,
    Option.some_bind, Option.pure_def]
  simp [liveNeighborsSpec, neighborOffsets, List.countP_cons]
  ring

theorem updateBody_rect (g : Grid) (rows cols : Nat) (h : Rect g rows cols)
    (f : Nat → Nat → Bool) (i j : Nat) (hi : i < rows) (hj : j < cols) :
    updateBody g (Int.ofNat i) (Int.ofNat j) (tabulate rows cols f) =
      some (tabulate rows cols (fun r c => if r = i ∧ c = j then nextCell g i j else f r c)) := by
  have hpos : 0 < rows := by omega
  unfold updateBody
  rw [countLiveNeighbors_rect g rows cols h hpos, readCell_rect g rows cols h]
  have hin : 0 ≤ Int.ofNat i ∧ Int.ofNat i < (rows : Int) ∧ 0 ≤ Int.ofNat j ∧
      Int.ofNat j < (cols : Int) := by
    simp only [Int.ofNat_eq_coe]
    omega
  simp only [hin, and_self, if_true]
  have hn : nextCell g i j =
      lifeRule (cellAt g i j) (liveNeighborsSpec g (Int.ofNat i) (Int.ofNat j) : Int) := by
    unfold nextCell
    rw [countLiveNeighbors_rect g rows cols h hpos]
    rfl
  rw [hn]
  simp only [Int.ofNat_eq_coe, Int.toNat_ofNat]
  cases hc : cellAt g i j
  · simp only [lifeRule]
    exact writeCell_tabulate rows cols f i j _ hi hj
  · simp only [lifeRule]
    exact writeCell_tabulate rows cols f i j _ hi hj

theorem updateGrid_rect (g : Grid) (rows cols : Nat) (h : Rect g rows cols) (hpos : 0 < rows) :
    updateGrid g = some (tabulate rows cols (nextCell g)) := by
  obtain ⟨first, hfirst, hlen⟩ := rect_head g rows cols h hpos
  unfold updateGrid
  rw [hfirst]
  simp only [h.1, hlen]
  have hinner : ∀ i, i < rows → ∀ f : Nat → Nat → Bool,
      forUpTo (cols : Int) (fun col acc => updateBody g (Int.ofNat i) col acc)
          (tabulate rows cols f) =
        some (tabulate rows cols (fun r c => if r = i then nextCell g r c else f r c)) := by
    intro i hi f
    have key := forUpTo_steps cols (fun col acc => updateBody g (Int.ofNat i) col acc)
      (fun j => tabulate rows cols (fun r c => if r = i ∧ c < j then nextCell g r c else f r c))
      (by
        intro j hj
        show updateBody g (Int.ofNat i) (Int.ofNat j) _ = _
        rw [updateBody_rect g rows cols h _ i j hi hj]
        congr 1
        apply tabulate_congr
        intro r c _ _
        by_cases hr : r = i
        · subst hr
          by_cases hc : c = j
          · subst hc; simp
          · by_cases hc' : c < j
            · simp [hc, hc', Nat.lt_succ_of_lt hc']
            · have : ¬ c < j + 1 := by omega
              simp [hc, hc', this]
        · simp [hr])
    have h0 : tabulate rows cols (fun r c => if r = i ∧ c < 0 then nextCell g r c else f r c) =
        tabulate rows cols f := by
      apply tabulate_congr
      intro r c _ _
      simp
    dsimp only at key
    rw [h0] at key
    rw [key]
    congr 1
    apply tabulate_congr
    intro r c _ hc
    simp [hc]
  have key := forUpTo_steps rows
    (fun row next => forUpTo (cols : Int) (fun col acc => updateBody g row col acc) next)
    (fun i => tabulate rows cols (fun r c => if r < i then nextCell g r c else cellAt g r c))
    (by
      intro i hi
      show forUpTo (cols : Int) (fun col acc => updateBody g (Int.ofNat i) col acc) _ = _
      rw [hinner i hi]
      congr 1
      apply tabulate_congr
      intro r c _ _
      by_cases hr : r = i
      · subst hr; simp
      · by_cases hr' : r < i
        · simp [hr, hr', Nat.lt_succ_of_lt hr']
        · have : ¬ r < i + 1 := by omega
          simp [hr, hr', this])
  have h0 : tabulate rows cols (fun r c => if r < 0 then nextCell g r c else cellAt g r c) = g := by
    rw [rect_eq_tabulate g rows cols h]
    apply tabulate_congr
    intro r c hr hc
    simp [cellAt_tabulate rows cols _ r c hr hc]
  dsimp only at key
  rw [h0] at key
  rw [key]
  congr 1
  apply tabulate_congr
  intro r c hr _
  simp [hr]

/-! ## The rule, cell by cell -/

theorem cellAt_eq_readCell (g : Grid) (r c : Nat) :
    cellAt g r c = (readCell g (Int.ofNat r) (Int.ofNat c)).getD false := by
  unfold cellAt readCell
  simp only [Int.ofNat_eq_coe, Int.natCast_nonneg, and_self, if_true, Int.toNat_ofNat]
  cases g[r]? <;> rfl

theorem readCell_updateGrid (g : Grid) (rows cols : Nat) (h : Rect g rows cols) (hpos : 0 < rows)
    (r c : Int) (hr : 0 ≤ r ∧ r < rows) (hc : 0 ≤ c ∧ c < cols) :
    ∃ alive n next, readCell g r c = some alive ∧ countLiveNeighbors g r c = some n ∧
      updateGrid g = some next ∧ readCell next r c = some (lifeRule alive n) := by
  refine ⟨cellAt g r.toNat c.toNat, (liveNeighborsSpec g r c : Int), tabulate rows cols (nextCell g),
    ?_, countLiveNeighbors_rect g rows cols h hpos r c, updateGrid_rect g rows cols h hpos, ?_⟩
  · rw [readCell_rect g rows cols h]
    simp [hr, hc]
  · rw [readCell_tabulate]
    have hin : 0 ≤ r ∧ r < rows ∧ 0 ≤ c ∧ c < cols := ⟨hr.1, hr.2, hc.1, hc.2⟩
    simp only [hin, and_self, if_true]
    unfold nextCell
    have e1 : Int.ofNat r.toNat = r := by simp [hr.1]
    have e2 : Int.ofNat c.toNat = c := by simp [hc.1]
    rw [e1, e2, countLiveNeighbors_rect g rows cols h hpos]
    rfl

/-- C1: in a rectangular grid with at least one row, an in-range live cell is live after
`updateGrid` exactly when `countLiveNeighbors`, taken on the grid before the call, is 2
or 3; otherwise it is dead afterwards. -/
theorem updateGrid_live_cell (g : Grid) (rows cols : Nat) (h : Rect g rows cols)
    (hpos : 0 < rows) (r c : Int) (hr : 0 ≤ r ∧ r < rows) (hc : 0 ≤ c ∧ c < cols)
    (hlive : readCell g r c = some true) :
    ∃ next, updateGrid g = some next ∧
      (readCell next r c = some true ↔
        (countLiveNeighbors g r c = some 2 ∨ countLiveNeighbors g r c = some 3)) ∧
      (¬ (countLiveNeighbors g r c = some 2 ∨ countLiveNeighbors g r c = some 3) →
        readCell next r c = some false) := by
  obtain ⟨alive, n, next, ha, hn, hu, hnext⟩ := readCell_updateGrid g rows cols h hpos r c hr hc
  rw [hlive] at ha
  cases ha
  refine ⟨next, hu, ?_, ?_⟩
  · rw [hnext, hn]
    simp [lifeRule]
  · rw [hnext, hn]
    simp [lifeRule]

/-- C2: in a rectangular grid with at least one row, an in-range dead cell is live after
`updateGrid` exactly when `countLiveNeighbors`, taken on the grid before the call, is 3. -/
theorem updateGrid_dead_cell (g : Grid) (rows cols : Nat) (h : Rect g rows cols)
    (hpos : 0 < rows) (r c : Int) (hr : 0 ≤ r ∧ r < rows) (hc : 0 ≤ c ∧ c < cols)
    (hdead : readCell g r c = some false) :
    ∃ next, updateGrid g = some next ∧
      (readCell next r c = some true ↔ countLiveNeighbors g r c = some 3) ∧
      (countLiveNeighbors g r c ≠ some 3 → readCell next r c = some false) := by
  obtain ⟨alive, n, next, ha, hn, hu, hnext⟩ := readCell_updateGrid g rows cols h hpos r c hr hc
  rw [hdead] at ha
  cases ha
  refine ⟨next, hu, ?_, ?_⟩
  · rw [hnext, hn]
    simp [lifeRule]
  · rw [hnext, hn]
    simp [lifeRule]

/-- C3: in a rectangular grid with at least one row, `countLiveNeighbors` returns the
number of the eight surrounding positions that lie inside the grid and hold a live
cell; a position outside the grid is not read and the cell itself is not among them. -/
theorem countLiveNeighbors_eq_spec (g : Grid) (rows cols : Nat) (h : Rect g rows cols)
    (hpos : 0 < rows) (r c : Int) :
    countLiveNeighbors g r c = some (liveNeighborsSpec g r c : Int) ∧
      (0, 0) ∉ neighborOffsets ∧ neighborOffsets.Nodup ∧ neighborOffsets.length = 8 ∧
      (∀ d ∈ neighborOffsets, d.1 ∈ deltas ∧ d.2 ∈ deltas) ∧
      (∀ y x : Int, readCell g y x = some true →
        (0 ≤ y ∧ y < rows ∧ 0 ≤ x ∧ x < cols)) := by
  refine ⟨countLiveNeighbors_rect g rows cols h hpos r c, by decide, by decide, rfl, by decide, ?_⟩
  intro y x hyx
  rw [readCell_rect g rows cols h] at hyx
  by_contra hcon
  simp [hcon] at hyx

theorem readCell_ne_true_of_dead (g : Grid) (hdead : ∀ row ∈ g, ∀ cell ∈ row, cell = false)
    (y x : Int) : readCell g y x ≠ some true := by
  intro hcon
  unfold readCell at hcon
  split at hcon
  · cases hrow : g[y.toNat]? with
    | none => simp [hrow] at hcon
    | some row =>
      simp only [hrow] at hcon
      have := hdead row (List.getElem?_mem hrow) true (List.getElem?_mem hcon)
      cases this
  · cases hcon

/-- C10: a rectangular grid with at least one row in which every cell is dead is
returned unchanged by `updateGrid`, so every cell is dead afterwards. -/
theorem updateGrid_all_dead (g : Grid) (rows cols : Nat) (h : Rect g rows cols)
    (hpos : 0 < rows) (hdead : ∀ row ∈ g, ∀ cell ∈ row, cell = false) :
    ∃ next, updateGrid g = some next ∧ next = g ∧
      (∀ row ∈ next, ∀ cell ∈ row, cell = false) ∧ isEmpty next = true := by
  have hfix : updateGrid g = some g := by
    rw [updateGrid_rect g rows cols h hpos]
    conv_rhs => rw [rect_eq_tabulate g rows cols h]
    congr 1
    apply tabulate_congr
    intro r c _ _
    have hcell : cellAt g r c = false := by
      rw [cellAt_eq_readCell]
      have := readCell_ne_true_of_dead g hdead (Int.ofNat r) (Int.ofNat c)
      cases hv : readCell g (Int.ofNat r) (Int.ofNat c) with
      | none => rfl
      | some b =>
        cases b
        · rfl
        · exact absurd hv this
    have hcount : liveNeighborsSpec g (Int.ofNat r) (Int.ofNat c) = 0 := by
      unfold liveNeighborsSpec
      rw [List.countP_eq_zero]
      intro d _
      simpa using readCell_ne_true_of_dead g hdead _ _
    unfold nextCell
    rw [countLiveNeighbors_rect g rows cols h hpos, hcell, hcount]
    rfl
  refine ⟨g, hfix, rfl, hdead, ?_⟩
  clear hfix h hpos
  induction g with
  | nil => rfl
  | cons row rest ih =>
    have hrow : rowHasLive row = false := by
      have hr := hdead row (List.mem_cons_self _ _)
      clear hdead ih
      induction row with
      | nil => rfl
      | cons cell cells ihr =>
        have := hr cell (List.mem_cons_self _ _)
        subst this
        simp only [rowHasLive]
        exact ihr (fun x hx => hr x (List.mem_cons_of_mem _ hx))
    simp only [isEmpty, hrow]
    exact ih (fun r hr => hdead r (List.mem_cons_of_mem _ hr))

theorem updateGrid_live_cell_witness :
    Rect exampleBlinker 3 3 ∧ readCell exampleBlinker 1 1 = some true ∧
    ∃ next, updateGrid exampleBlinker = some next ∧
      (readCell next 1 1 = some true ↔
        (countLiveNeighbors exampleBlinker 1 1 = some 2 ∨
          countLiveNeighbors exampleBlinker 1 1 = some 3)) ∧
      (¬ (countLiveNeighbors exampleBlinker 1 1 = some 2 ∨
          countLiveNeighbors exampleBlinker 1 1 = some 3) →
        readCell next 1 1 = some false) :=
  ⟨by decide, by decide,
    updateGrid_live_cell exampleBlinker 3 3 (by decide) (by decide) 1 1 (by decide) (by decide)
      (by decide)⟩

theorem updateGrid_dead_cell_witness :
    Rect exampleBlinker 3 3 ∧ readCell exampleBlinker 0 1 = some false ∧
    ∃ next, updateGrid exampleBlinker = some next ∧
      (readCell next 0 1 = some true ↔ countLiveNeighbors exampleBlinker 0 1 = some 3) ∧
      (countLiveNeighbors exampleBlinker 0 1 ≠ some 3 → readCell next 0 1 = some false) :=
  ⟨by decide, by decide,
    updateGrid_dead_cell exampleBlinker 3 3 (by decide) (by decide) 0 1 (by decide) (by decide)
      (by decide)⟩

theorem countLiveNeighbors_eq_spec_witness :
    Rect exampleBlinker 3 3 ∧
    countLiveNeighbors exampleBlinker 1 2 = some (liveNeighborsSpec exampleBlinker 1 2 : Int) ∧
    liveNeighborsSpec exampleBlinker 1 2 = 1 :=
  ⟨by decide,
    (countLiveNeighbors_eq_spec exampleBlinker 3 3 (by decide) (by decide) 1 2).1, by decide⟩

theorem updateGrid_all_dead_witness :
    Rect exampleDead 2 3 ∧
    ∃ next, updateGrid exampleDead = some next ∧ next = exampleDead ∧
      (∀ row ∈ next, ∀ cell ∈ row, cell = false) ∧ isEmpty next = true :=
  ⟨by decide, updateGrid_all_dead exampleDead 2 3 (by decide) (by decide) (by decide)⟩

/-! ## The key of a grid -/

theorem cellChar_injective : Function.Injective cellChar := by
  intro a b h
  cases a <;> cases b <;> first | rfl | (exact absurd h (by decide))

theorem row_foldl_data (row : List Bool) (s : String) :
    (row.foldl (fun t cell => t.push (if cell then '1' else '0')) s).data =
      s.data ++ row.map cellChar := by
  induction row generalizing s with
  | nil => simp
  | cons cell rest ih =>
    rw [List.foldl_cons, ih]
    simp [cellChar]

theorem grid_foldl_data (g : Grid) (s : String) :
    (g.foldl (fun s row => row.foldl (fun t cell => t.push (if cell then '1' else '0')) s) s).data =
      s.data ++ g.flatten.map cellChar := by
  induction g generalizing s with
  | nil => simp
  | cons row rest ih =>
    rw [List.foldl_cons, ih, row_foldl_data]
    simp

theorem gridToString_data (g : Grid) : (gridToString g).data = g.flatten.map cellChar := by
  unfold gridToString
  rw [grid_foldl_data]
  rfl

theorem flatten_injective_of_rect (g1 g2 : Grid) (rows cols : Nat) (h1 : Rect g1 rows cols)
    (h2 : Rect g2 rows cols) (h : g1.flatten = g2.flatten) : g1 = g2 := by
  induction g1 generalizing g2 rows with
  | nil =>
    have : g2.length = 0 := by rw [h2.1, ← h1.1]; rfl
    exact (List.length_eq_zero.1 this).symm
  | cons r1 t1 ih =>
    cases g2 with
    | nil =>
      have : (r1 :: t1).length = 0 := by rw [h1.1, ← h2.1]; rfl
      cases this
    | cons r2 t2 =>
      have hl1 : r1.length = cols := h1.2 r1 (List.mem_cons_self _ _)
      have hl2 : r2.length = cols := h2.2 r2 (List.mem_cons_self _ _)
      simp only [List.flatten_cons] at h
      obtain ⟨hr, ht⟩ := List.append_inj h (by rw [hl1, hl2])
      have e1 : Rect t1 t1.length cols := ⟨rfl, fun r hr => h1.2 r (List.mem_cons_of_mem _ hr)⟩
      have e2 : Rect t2 t1.length cols := by
        refine ⟨?_, fun r hr => h2.2 r (List.mem_cons_of_mem _ hr)⟩
        have := h1.1.trans h2.1.symm
        simp only [List.length_cons] at this
        omega
      rw [hr, ih t2 t1.length e1 e2 ht]

theorem gridToString_injective (g1 g2 : Grid) (rows cols : Nat) (h1 : Rect g1 rows cols)
    (h2 : Rect g2 rows cols) (h : gridToString g1 = gridToString g2) : g1 = g2 := by
  have hd : (gridToString g1).data = (gridToString g2).data := by rw [h]
  rw [gridToString_data, gridToString_data] at hd
  exact flatten_injective_of_rect g1 g2 rows cols h1 h2
    (List.map_injective_iff.2 cellChar_injective hd)

/-- C7: two grids of the same number of rows and of columns with the same `gridToString`
key are equal; hence the key of a grid lies among the keys of earlier grids of that
dimension exactly when the grid itself is one of them. -/
theorem gridToString_key_faithful (g1 g2 : Grid) (rows cols : Nat) (h1 : Rect g1 rows cols)
    (h2 : Rect g2 rows cols) :
    (gridToString g1 = gridToString g2 → g1 = g2) ∧
      ∀ past : List Grid, (∀ p ∈ past, Rect p rows cols) →
        (gridToString g1 ∈ (past.map gridToString).toFinset ↔ g1 ∈ past) := by
  refine ⟨gridToString_injective g1 g2 rows cols h1 h2, ?_⟩
  intro past hpast
  simp only [List.mem_toFinset, List.mem_map]
  constructor
  · rintro ⟨p, hp, hkey⟩
    rw [← gridToString_injective p g1 rows cols (hpast p hp) h1 hkey]
    exact hp
  · intro hp
    exact ⟨g1, hp, rfl⟩

theorem gridToString_key_faithful_witness :
    Rect exampleBlinker 3 3 ∧ Rect exampleVertical 3 3 ∧
    (gridToString exampleBlinker = gridToString exampleVertical →
      exampleBlinker = exampleVertical) ∧
    (gridToString exampleBlinker ∈ ([exampleVertical, exampleBlinker].map gridToString).toFinset ↔
      exampleBlinker ∈ [exampleVertical, exampleBlinker]) :=
  ⟨by decide, by decide,
    (gridToString_key_faithful exampleBlinker exampleVertical 3 3 (by decide) (by decide)).1,
    (gridToString_key_faithful exampleBlinker exampleVertical 3 3 (by decide) (by decide)).2
      [exampleVertical, exampleBlinker] (by decide)⟩

/-! ## One timer tick -/

theorem rows_pos_of_not_isEmpty (g : Grid) (rows cols : Nat) (h : Rect g rows cols)
    (hne : isEmpty g = false) : 0 < rows := by
  cases g with
  | nil => simp [isEmpty] at hne
  | cons row rest =>
    rw [← h.1]
    simp

/-- C6: a timer tick in the running, not-stopped state does one of three things, which
exclude each other: the key is in the history, then `stopped` is set and grid and history
are unchanged; else the grid is empty, then likewise; else `stopped` stays false, the key
is added to the history and the grid becomes `updateGrid` of it. The old history is
contained in the new one in every case. -/
theorem tick_cases (s : State) (rows cols : Nat) (hrect : Rect s.filled rows cols)
    (hrun : s.running = true) (hstop : s.stopped = false) :
    ∃ t, tick s = some t ∧ s.previousStates ⊆ t.previousStates ∧ t.running = true ∧
      ((gridToString s.filled ∈ s.previousStates ∧ t.stopped = true ∧
          t.filled = s.filled ∧ t.previousStates = s.previousStates) ∨
       (gridToString s.filled ∉ s.previousStates ∧ isEmpty s.filled = true ∧
          t.stopped = true ∧ t.filled = s.filled ∧ t.previousStates = s.previousStates) ∨
       (gridToString s.filled ∉ s.previousStates ∧ isEmpty s.filled = false ∧
          t.stopped = false ∧ updateGrid s.filled = some t.filled ∧
          t.previousStates = insert (gridToString s.filled) s.previousStates)) := by
  by_cases hmem : gridToString s.filled ∈ s.previousStates
  · refine ⟨{ s with output := s.output ++ [loopMsg], stopped := true }, ?_,
      Finset.Subset.refl _, hrun, Or.inl ⟨hmem, rfl, rfl, rfl⟩⟩
    simp [tick, hrun, hstop, hmem]
  · cases hemp : isEmpty s.filled with
    | true =>
      refine ⟨{ s with output := s.output ++ [emptyMsg], stopped := true }, ?_,
        Finset.Subset.refl _, hrun, Or.inr (Or.inl ⟨hmem, rfl, rfl, rfl, rfl⟩)⟩
      simp [tick, hrun, hstop, hmem, hemp]
    | false =>
      have hpos := rows_pos_of_not_isEmpty s.filled rows cols hrect hemp
      have hu := updateGrid_rect s.filled rows cols hrect hpos
      refine ⟨{ s with previousStates := insert (gridToString s.filled) s.previousStates,
                       filled := tabulate rows cols (nextCell s.filled) }, ?_,
        Finset.subset_insert _ _, hrun, Or.inr (Or.inr ⟨hmem, rfl, hstop, hu, rfl⟩)⟩
      simp [tick, hrun, hstop, hmem, hemp, hu]

theorem tick_cases_witness :
    Rect exampleRunning.filled 3 3 ∧
    ∃ t, tick exampleRunning = some t ∧ exampleRunning.previousStates ⊆ t.previousStates ∧
      t.running = true ∧
      ((gridToString exampleRunning.filled ∈ exampleRunning.previousStates ∧ t.stopped = true ∧
          t.filled = exampleRunning.filled ∧ t.previousStates = exampleRunning.previousStates) ∨
       (gridToString exampleRunning.filled ∉ exampleRunning.previousStates ∧
          isEmpty exampleRunning.filled = true ∧
          t.stopped = true ∧ t.filled = exampleRunning.filled ∧
          t.previousStates = exampleRunning.previousStates) ∨
       (gridToString exampleRunning.filled ∉ exampleRunning.previousStates ∧
          isEmpty exampleRunning.filled = false ∧
          t.stopped = false ∧ updateGrid exampleRunning.filled = some t.filled ∧
          t.previousStates =
            insert (gridToString exampleRunning.filled) exampleRunning.previousStates)) :=
  ⟨by decide, tick_cases exampleRunning 3 3 (by decide) rfl rfl⟩

/-! ## The run, generation by generation -/

theorem updateGrid_preserves_rect (g next : Grid) (rows cols : Nat) (h : Rect g rows cols)
    (hu : updateGrid g = some next) : Rect next rows cols := by
  by_cases hpos : 0 < rows
  · rw [updateGrid_rect g rows cols h hpos] at hu
    cases hu
    exact tabulate_rect rows cols _
  · have hnil : g = [] := List.length_eq_zero.1 (by rw [h.1]; omega)
    subst hnil
    simp [updateGrid] at hu

theorem generation_rect (g0 : Grid) (rows cols : Nat) (h : Rect g0 rows cols) :
    ∀ (i : Nat) (gi : Grid), generation g0 i = some gi → Rect gi rows cols := by
  intro i
  induction i with
  | zero =>
    intro gi hgi
    simp only [generation, Option.some.injEq] at hgi
    rw [← hgi]
    exact h
  | succ k ih =>
    intro gi hgi
    simp only [generation] at hgi
    cases hk : generation g0 k with
    | none => simp [hk] at hgi
    | some gk =>
      simp only [hk] at hgi
      exact updateGrid_preserves_rect gk gi rows cols (ih gk hk) hgi

theorem generation_defined_below (g0 : Grid) (n : Nat) (gn : Grid)
    (hn : generation g0 n = some gn) : ∀ m, m ≤ n → ∃ gm, generation g0 m = some gm := by
  induction n generalizing gn with
  | zero =>
    intro m hm
    have : m = 0 := by omega
    subst this
    exact ⟨gn, hn⟩
  | succ k ih =>
    intro m hm
    by_cases hmk : m = k + 1
    · subst hmk
      exact ⟨gn, hn⟩
    · simp only [generation] at hn
      cases hk : generation g0 k with
      | none => simp [hk] at hn
      | some gk => exact ih gk hk m (by omega)

theorem runTicks_succ_right (n : Nat) (s : State) :
    runTicks (n + 1) s = (runTicks n s).bind tick := by
  induction n generalizing s with
  | zero =>
    simp only [runTicks, Option.some_bind]
    cases ht : tick s <;> rfl
  | succ k ih =>
    show (match tick s with | none => none | some t => runTicks (k + 1) t) = _
    cases ht : tick s with
    | none => simp [runTicks, ht]
    | some t =>
      simp only [ih t]
      simp [runTicks, ht]

/-- While no generation below `k` is empty or a repeat, `k` ticks step the grid to
generation `k` and record exactly the keys of the generations below `k`. -/
theorem runTicks_prefix (g0 : Grid) (rows cols : Nat) (hrect : Rect g0 rows cols) (s : State)
    (hg : s.filled = g0) (hrun : s.running = true) (hstop : s.stopped = false)
    (hhist : s.previousStates = ∅) (k : Nat)
    (hk : ∀ m, m < k → ∃ gm, generation g0 m = some gm ∧ isEmpty gm = false ∧
      ∀ i, i < m → generation g0 i ≠ some gm) :
    ∃ t gk, runTicks k s = some t ∧ generation g0 k = some gk ∧ t.filled = gk ∧
      t.running = true ∧ t.stopped = false ∧ t.output = s.output ∧
      t.previousStates = (Finset.range k).image (generationKey g0) := by
  induction k with
  | zero =>
    exact ⟨s, g0, rfl, rfl, hg, hrun, hstop, rfl, by simp [hhist]⟩
  | succ k ih =>
    obtain ⟨t, gk, hrunk, hgen, hfill, htrun, htstop, hout, hhis⟩ :=
      ih (fun m hm => hk m (Nat.lt_succ_of_lt hm))
    subst hfill
    obtain ⟨gk', hgen', hne, hfresh⟩ := hk k (Nat.lt_succ_self k)
    rw [hgen] at hgen'
    cases hgen'
    have hrk : Rect t.filled rows cols := generation_rect g0 rows cols hrect k _ hgen
    have hnotin : gridToString t.filled ∉ t.previousStates := by
      rw [hhis]
      intro hmem
      obtain ⟨i, hi, hkey⟩ := Finset.mem_image.1 hmem
      have hi' : i < k := Finset.mem_range.1 hi
      obtain ⟨gi, hgi⟩ := generation_defined_below g0 k _ hgen i (by omega)
      have hri : Rect gi rows cols := generation_rect g0 rows cols hrect i gi hgi
      have hkey' : gridToString gi = gridToString t.filled := by
        rw [← hkey]
        simp [generationKey, hgi]
      have := gridToString_injective gi _ rows cols hri hrk hkey'
      exact hfresh i hi' (by rw [hgi, this])
    have hpos := rows_pos_of_not_isEmpty _ rows cols hrk hne
    have hu := updateGrid_rect _ rows cols hrk hpos
    refine ⟨{ t with previousStates := insert (gridToString t.filled) t.previousStates,
                     filled := tabulate rows cols (nextCell t.filled) },
      tabulate rows cols (nextCell t.filled), ?_, ?_, rfl, htrun, htstop, hout, ?_⟩
    · rw [runTicks_succ_right, hrunk, Option.some_bind]
      simp [tick, htrun, htstop, hnotin, hne, hu]
    · simp only [generation, hgen, hu]
    · show insert (gridToString t.filled) t.previousStates = _
      rw [Finset.range_succ, Finset.image_insert, hhis]
      simp [generationKey, hgen]

theorem loopMsg_ne_emptyMsg (out : List String) : out ++ [emptyMsg] ≠ out ++ [loopMsg] := by
  intro h
  have := List.append_cancel_left h
  exact absurd this (by decide)

/-- C5: with generation `i` the grid after `i` applications of `updateGrid` to `g0`, let `n`
be the first generation that has no live cell or equals an earlier generation. A run
started on `g0` with an empty history is not stopped after any `k ≤ n` ticks, where its
grid is generation `k`; tick `n + 1`, which examines generation `n`, stops it, and the
loop message is printed exactly when generation `n` equals an earlier generation. -/
theorem run_stops_at_first_repeat_or_extinction (g0 : Grid) (rows cols : Nat)
    (hrect : Rect g0 rows cols) (s : State) (hg : s.filled = g0) (hrun : s.running = true)
    (hstop : s.stopped = false) (hhist : s.previousStates = ∅) (n : Nat) (gn : Grid)
    (hn : generation g0 n = some gn)
    (hend : isEmpty gn = true ∨ ∃ i, i < n ∧ generation g0 i = some gn)
    (hmin : ∀ m, m < n → ∀ gm, generation g0 m = some gm →
      isEmpty gm = false ∧ ∀ i, i < m → generation g0 i ≠ some gm) :
    (∀ k, k ≤ n → ∃ t, runTicks k s = some t ∧ t.stopped = false ∧
        generation g0 k = some t.filled) ∧
      ∃ t, runTicks (n + 1) s = some t ∧ t.stopped = true ∧ t.filled = gn ∧
        (t.output = s.output ++ [loopMsg] ∨ t.output = s.output ++ [emptyMsg]) ∧
        (t.output = s.output ++ [loopMsg] ↔ ∃ i, i < n ∧ generation g0 i = some gn) := by
  have hpre : ∀ k, k ≤ n → ∀ m, m < k → ∃ gm, generation g0 m = some gm ∧
      isEmpty gm = false ∧ ∀ i, i < m → generation g0 i ≠ some gm := by
    intro k hk m hm
    obtain ⟨gm, hgm⟩ := generation_defined_below g0 n gn hn m (by omega)
    exact ⟨gm, hgm, hmin m (by omega) gm hgm⟩
  constructor
  · intro k hk
    obtain ⟨t, gk, hrunk, hgen, hfill, _, htstop, _, _⟩ :=
      runTicks_prefix g0 rows cols hrect s hg hrun hstop hhist k (hpre k hk)
    exact ⟨t, hrunk, htstop, by rw [hfill]; exact hgen⟩
  · obtain ⟨t, gn', hrunn, hgen, hfill, htrun, htstop, hout, hhis⟩ :=
      runTicks_prefix g0 rows cols hrect s hg hrun hstop hhist n (hpre n (le_refl n))
    rw [hn] at hgen
    cases hgen
    subst hfill
    have hrn : Rect t.filled rows cols := generation_rect g0 rows cols hrect n _ hn
    have hiff : gridToString t.filled ∈ t.previousStates ↔
        ∃ i, i < n ∧ generation g0 i = some t.filled := by
      rw [hhis]
      constructor
      · intro hmem
        obtain ⟨i, hi, hkey⟩ := Finset.mem_image.1 hmem
        have hi' : i < n := Finset.mem_range.1 hi
        obtain ⟨gi, hgi⟩ := generation_defined_below g0 n _ hn i (by omega)
        have hri : Rect gi rows cols := generation_rect g0 rows cols hrect i gi hgi
        have hkey' : gridToString gi = gridToString t.filled := by
          rw [← hkey]
          simp [generationKey, hgi]
        refine ⟨i, hi', ?_⟩
        rw [hgi, gridToString_injective gi _ rows cols hri hrn hkey']
      · rintro ⟨i, hi, hgi⟩
        exact Finset.mem_image.2 ⟨i, Finset.mem_range.2 hi, by simp [generationKey, hgi]⟩
    by_cases hmem : gridToString t.filled ∈ t.previousStates
    · refine ⟨{ t with output := t.output ++ [loopMsg], stopped := true }, ?_, rfl, rfl,
        Or.inl (by rw [← hout]), ?_⟩
      · rw [runTicks_succ_right, hrunn, Option.some_bind]
        simp [tick, htrun, htstop, hmem]
      · constructor
        · intro _
          exact hiff.1 hmem
        · intro _
          show t.output ++ [loopMsg] = _
          rw [hout]
    · have hemp : isEmpty t.filled = true := by
        rcases hend with he | hrep
        · exact he
        · exact absurd (hiff.2 hrep) hmem
      refine ⟨{ t with output := t.output ++ [emptyMsg], stopped := true }, ?_, rfl, rfl,
        Or.inr (by rw [← hout]), ?_⟩
      · rw [runTicks_succ_right, hrunn, Option.some_bind]
        simp [tick, htrun, htstop, hmem, hemp]
      · constructor
        · intro ho
          exfalso
          apply loopMsg_ne_emptyMsg s.output
          rw [← ho, ← hout]
        · intro hrep
          exact absurd (hiff.2 hrep) hmem

theorem run_stops_at_first_repeat_or_extinction_witness :
    (∀ k, k ≤ 2 → ∃ t, runTicks k exampleRunning = some t ∧ t.stopped = false ∧
        generation exampleBlinker k = some t.filled) ∧
      ∃ t, runTicks (2 + 1) exampleRunning = some t ∧ t.stopped = true ∧
        t.filled = exampleBlinker ∧
        (t.output = exampleRunning.output ++ [loopMsg] ∨
          t.output = exampleRunning.output ++ [emptyMsg]) ∧
        (t.output = exampleRunning.output ++ [loopMsg] ↔
          ∃ i, i < 2 ∧ generation exampleBlinker i = some exampleBlinker) :=
  run_stops_at_first_repeat_or_extinction exampleBlinker 3 3 (by decide) exampleRunning rfl rfl
    rfl rfl 2 exampleBlinker (by decide) (Or.inr ⟨0, by decide, by decide⟩)
    (by
      intro m hm gm hgm
      have hm' : m = 0 ∨ m = 1 := by omega
      rcases hm' with rfl | rfl
      · have : gm = exampleBlinker := by
          have h0 : generation exampleBlinker 0 = some exampleBlinker := rfl
          rw [h0] at hgm
          exact (Option.some.inj hgm).symm
        subst this
        exact ⟨by decide, fun i hi => absurd hi (Nat.not_lt_zero i)⟩
      · have : gm = exampleVertical := by
          have h1 : generation exampleBlinker 1 = some exampleVertical := by decide
          rw [h1] at hgm
          exact (Option.some.inj hgm).symm
        subst this
        refine ⟨by decide, fun i hi => ?_⟩
        have hi0 : i = 0 := by omega
        subst hi0
        decide)

/-! ## Termination of the run -/

theorem isEmpty_of_dead (g : Grid) (hdead : ∀ row ∈ g, ∀ cell ∈ row, cell = false) :
    isEmpty g = true := by
  induction g with
  | nil => rfl
  | cons row rest ih =>
    have hrow : rowHasLive row = false := by
      have hr := hdead row (List.mem_cons_self _ _)
      clear hdead ih
      induction row with
      | nil => rfl
      | cons cell cells ihr =>
        have := hr cell (List.mem_cons_self _ _)
        subst this
        simp only [rowHasLive]
        exact ihr (fun x hx => hr x (List.mem_cons_of_mem _ hx))
    simp only [isEmpty, hrow]
    exact ih (fun r hr => hdead r (List.mem_cons_of_mem _ hr))

/-- The keys of the grids of `rows` by `cols` cells that have a live cell lie in a set of
fewer than `2 ^ (rows * cols)` strings. -/
theorem live_keys_bounded (rows cols : Nat) :
    ∃ K : Finset String, K.card + 1 ≤ 2 ^ (rows * cols) ∧
      ∀ g, Rect g rows cols → isEmpty g = false → gridToString g ∈ K := by
  classical
  let build : (Fin rows → Fin cols → Bool) → Grid := fun f =>
    tabulate rows cols (fun r c => if h : r < rows ∧ c < cols then f ⟨r, h.1⟩ ⟨c, h.2⟩ else false)
  let all : Finset Grid := Finset.univ.image build
  have hall : ∀ g, Rect g rows cols → g ∈ all := by
    intro g hg
    refine Finset.mem_image.2 ⟨fun r c => cellAt g r c, Finset.mem_univ _, ?_⟩
    conv_rhs => rw [rect_eq_tabulate g rows cols hg]
    apply tabulate_congr
    intro r c hr hc
    simp [hr, hc]
  have hcard : all.card ≤ 2 ^ (rows * cols) := by
    refine le_trans Finset.card_image_le ?_
    simp [Finset.card_univ, ← pow_mul, Nat.mul_comm]
  let dead : Grid := tabulate rows cols (fun _ _ => false)
  have hdead : dead ∈ all := hall dead (tabulate_rect rows cols _)
  have hdeadEmpty : isEmpty dead = true := by
    apply isEmpty_of_dead
    intro row hrow cell hcell
    simp only [dead, tabulate, List.mem_map] at hrow
    obtain ⟨r, _, rfl⟩ := hrow
    simp only [List.mem_map] at hcell
    obtain ⟨c, _, rfl⟩ := hcell
    rfl
  refine ⟨(all.erase dead).image gridToString, ?_, ?_⟩
  · have h1 : ((all.erase dead).image gridToString).card ≤ (all.erase dead).card :=
      Finset.card_image_le
    have h2 : (all.erase dead).card + 1 = all.card := Finset.card_erase_add_one hdead
    omega
  · intro g hg hne
    refine Finset.mem_image.2 ⟨g, Finset.mem_erase.2 ⟨?_, hall g hg⟩, rfl⟩
    intro hgd
    rw [hgd, hdeadEmpty] at hne
    cases hne

theorem tick_of_stopped (s : State) (h : s.stopped = true) : tick s = some s := by
  simp [tick, h]

theorem handleEvent_running (rows cols : Int) (s : State) (e : Event) (h : s.running = true) :
    ∃ t, handleEvent rows cols s e = some t ∧ t.filled = s.filled ∧ t.running = true ∧
      t.stopped = s.stopped ∧ t.previousStates = s.previousStates ∧ t.output = s.output := by
  cases e with
  | quitEvent => exact ⟨_, rfl, rfl, h, rfl, rfl, rfl⟩
  | keyDown isReturn => exact ⟨s, by simp [handleEvent, h], rfl, h, rfl, rfl, rfl⟩
  | mouseButtonDown isLeft => exact ⟨s, by simp [handleEvent, h], rfl, h, rfl, rfl, rfl⟩
  | mouseButtonUp isLeft =>
    cases isLeft with
    | true => exact ⟨{ s with mouseDown := false }, by simp [handleEvent], rfl, h, rfl, rfl, rfl⟩
    | false => exact ⟨s, by simp [handleEvent], rfl, h, rfl, rfl, rfl⟩
  | mouseMotion x y => exact ⟨s, by simp [handleEvent, h], rfl, h, rfl, rfl, rfl⟩
  | other => exact ⟨s, rfl, rfl, h, rfl, rfl, rfl⟩

/-- Once stopped, a running state stays stopped under every sequence of inputs. -/
theorem runInputs_of_stopped (rows cols : Int) (inputs : List Input) :
    ∀ s : State, s.running = true → s.stopped = true →
      ∃ t, runInputs rows cols inputs s = some t ∧ t.stopped = true ∧ t.filled = s.filled ∧
        t.previousStates = s.previousStates := by
  induction inputs with
  | nil =>
    intro s _ hs
    exact ⟨s, rfl, hs, rfl, rfl⟩
  | cons i rest ih =>
    intro s hr hs
    cases i with
    | event e =>
      obtain ⟨t, ht, hf, htr, hts, hp, _⟩ := handleEvent_running rows cols s e hr
      obtain ⟨u, hu, hus, huf, hup⟩ := ih t htr (by rw [hts, hs])
      exact ⟨u, by simp [runInputs, step, ht, hu], hus, by rw [huf, hf], by rw [hup, hp]⟩
    | timer =>
      obtain ⟨u, hu, hus, huf, hup⟩ := ih s hr hs
      exact ⟨u, by simp [runInputs, step, tick_of_stopped s hs, hu], hus, huf, hup⟩

/-- Every tick that does not stop the run uses up one key of the finite set `K`: with at
most `μ` keys of `K` not yet recorded, `μ + 1` ticks stop the run, whatever events arrive
in between. -/
theorem runInputs_stops (rows cols : Nat) (K : Finset String)
    (hK : ∀ g, Rect g rows cols → isEmpty g = false → gridToString g ∈ K)
    (inputs : List Input) :
    ∀ (μ : Nat) (s : State), s.running = true → Rect s.filled rows cols →
      (K \ s.previousStates).card ≤ μ → μ + 1 ≤ tickCount inputs →
      ∃ t, runInputs rows cols inputs s = some t ∧ t.stopped = true := by
  induction inputs with
  | nil =>
    intro μ s _ _ _ hcount
    simp [tickCount] at hcount
  | cons i rest ih =>
    intro μ s hr hrect hcard hcount
    cases i with
    | event e =>
      obtain ⟨t, ht, hf, htr, _, hp, _⟩ := handleEvent_running rows cols s e hr
      obtain ⟨u, hu, hus⟩ := ih μ t htr (by rw [hf]; exact hrect) (by rw [hp]; exact hcard)
        (by simpa [tickCount] using hcount)
      exact ⟨u, by simp [runInputs, step, ht, hu], hus⟩
    | timer =>
      have hcount' : μ ≤ tickCount rest := by
        simp only [tickCount] at hcount
        omega
      cases hs : s.stopped with
      | true =>
        obtain ⟨u, hu, hus, _, _⟩ := runInputs_of_stopped rows cols rest s hr hs
        exact ⟨u, by simp [runInputs, step, tick_of_stopped s hs, hu], hus⟩
      | false =>
        by_cases hmem : gridToString s.filled ∈ s.previousStates
        · obtain ⟨u, hu, hus, _, _⟩ := runInputs_of_stopped rows cols rest
            { s with output := s.output ++ [loopMsg], stopped := true } hr rfl
          simp only [hr] at hu
          exact ⟨u, by simp [runInputs, step, tick, hr, hs, hmem, hu], hus⟩
        · cases hemp : isEmpty s.filled with
          | true =>
            obtain ⟨u, hu, hus, _, _⟩ := runInputs_of_stopped rows cols rest
              { s with output := s.output ++ [emptyMsg], stopped := true } hr rfl
            simp only [hr] at hu
            exact ⟨u, by simp [runInputs, step, tick, hr, hs, hmem, hemp, hu], hus⟩
          | false =>
            have hpos := rows_pos_of_not_isEmpty s.filled rows cols hrect hemp
            have hupd := updateGrid_rect s.filled rows cols hrect hpos
            have hin : gridToString s.filled ∈ K \ s.previousStates :=
              Finset.mem_sdiff.2 ⟨hK s.filled hrect hemp, hmem⟩
            have hlt : (K \ insert (gridToString s.filled) s.previousStates).card <
                (K \ s.previousStates).card := by
              apply Finset.card_lt_card
              refine Finset.ssubset_iff_of_subset ?_ |>.2 ⟨gridToString s.filled, hin, ?_⟩
              · exact Finset.sdiff_subset_sdiff (Finset.Subset.refl K) (Finset.subset_insert _ _)
              · intro hcon
                exact (Finset.mem_sdiff.1 hcon).2 (Finset.mem_insert_self _ _)
            have hμ : 0 < μ := by omega
            obtain ⟨u, hu, hus⟩ := ih (μ - 1)
              { s with previousStates := insert (gridToString s.filled) s.previousStates,
                       filled := tabulate rows cols (nextCell s.filled) }
              hr (tabulate_rect rows cols _)
              (by
                show (K \ insert (gridToString s.filled) s.previousStates).card ≤ μ - 1
                omega)
              (by omega)
            simp only [hr, hs] at hu
            exact ⟨u, by simp [runInputs, step, tick, hr, hs, hmem, hemp, hupd, hu], hus⟩

theorem runInputs_timers (rows cols : Int) (n : Nat) (s : State) :
    runInputs rows cols (List.replicate n Input.timer) s = runTicks n s := by
  induction n generalizing s with
  | zero => rfl
  | succ k ih =>
    simp only [List.replicate_succ, runInputs, step, runTicks]
    cases tick s with
    | none => rfl
    | some t => exact ih t

theorem tickCount_timers (n : Nat) : tickCount (List.replicate n Input.timer) = n := by
  induction n with
  | zero => rfl
  | succ k ih => simp [List.replicate_succ, tickCount, ih]

/-- C4: a started run on a grid of `rows` by `cols` cells is stopped after at most
`2 ^ (rows * cols)` timer ticks, whatever the pattern: `stopped` is true after any
sequence of inputs that holds that many ticks, events in between included, and in
particular after `m` ticks in a row for every `m ≥ 2 ^ (rows * cols)`. -/
theorem run_stops_within_bound (rows cols : Nat) (s : State) (hrect : Rect s.filled rows cols)
    (hrun : s.running = true) :
    (∀ inputs : List Input, 2 ^ (rows * cols) ≤ tickCount inputs →
        ∃ t, runInputs rows cols inputs s = some t ∧ t.stopped = true) ∧
      (∀ m, 2 ^ (rows * cols) ≤ m → ∃ t, runTicks m s = some t ∧ t.stopped = true) ∧
      ∃ n, n ≤ 2 ^ (rows * cols) ∧ ∃ t, runTicks n s = some t ∧ t.stopped = true := by
  obtain ⟨K, hKcard, hK⟩ := live_keys_bounded rows cols
  have hgen : ∀ inputs : List Input, 2 ^ (rows * cols) ≤ tickCount inputs →
      ∃ t, runInputs rows cols inputs s = some t ∧ t.stopped = true := by
    intro inputs hcount
    have hsub : (K \ s.previousStates).card ≤ K.card :=
      Finset.card_le_card Finset.sdiff_subset
    exact runInputs_stops rows cols K hK inputs K.card s hrun hrect hsub (by omega)
  have hticks : ∀ m, 2 ^ (rows * cols) ≤ m → ∃ t, runTicks m s = some t ∧ t.stopped = true := by
    intro m hm
    have := hgen (List.replicate m Input.timer) (by rw [tickCount_timers]; exact hm)
    rwa [runInputs_timers] at this
  exact ⟨hgen, hticks, 2 ^ (rows * cols), le_refl _, hticks _ (le_refl _)⟩

theorem run_stops_within_bound_witness :
    Rect exampleRunning.filled 3 3 ∧
    (∀ inputs : List Input, 2 ^ (3 * 3) ≤ tickCount inputs →
        ∃ t, runInputs (3 : Nat) (3 : Nat) inputs exampleRunning = some t ∧ t.stopped = true) ∧
      (∀ m, 2 ^ (3 * 3) ≤ m → ∃ t, runTicks m exampleRunning = some t ∧ t.stopped = true) ∧
      ∃ n, n ≤ 2 ^ (3 * 3) ∧ ∃ t, runTicks n exampleRunning = some t ∧ t.stopped = true :=
  ⟨by decide, run_stops_within_bound 3 3 exampleRunning (by decide) rfl⟩

/-! ## The blinker -/

theorem readCell_patternGrid (rows cols : Nat) (r c : Int) (P : Int → Int → Bool)
    (hP : ∀ a b, P a b = true → 0 ≤ r + a ∧ r + a < rows ∧ 0 ≤ c + b ∧ c + b < cols)
    (y x : Int) :
    (readCell (patternGrid rows cols r c P) y x = some true) ↔ P (y - r) (x - c) = true := by
  unfold patternGrid
  rw [readCell_tabulate]
  by_cases hin : 0 ≤ y ∧ y < rows ∧ 0 ≤ x ∧ x < cols
  · have hy : ((y.toNat : Nat) : Int) = y := Int.toNat_of_nonneg hin.1
    have hx : ((x.toNat : Nat) : Int) = x := Int.toNat_of_nonneg hin.2.2.1
    simp only [hin, and_self, if_true, hy, hx, Option.some.injEq]
  · simp only [hin, if_false]
    constructor
    · intro h
      cases h
    · intro h
      exfalso
      apply hin
      have := hP _ _ h
      refine ⟨?_, ?_, ?_, ?_⟩ <;> omega

theorem nextCell_patternGrid (rows cols : Nat) (r c : Int) (P : Int → Int → Bool)
    (hP : ∀ a b, P a b = true → 0 ≤ r + a ∧ r + a < rows ∧ 0 ≤ c + b ∧ c + b < cols)
    (i j : Nat) (hi : i < rows) (hj : j < cols) :
    nextCell (patternGrid rows cols r c P) i j =
      lifeRule (P ((i : Int) - r) ((j : Int) - c))
        (patternCount P ((i : Int) - r) ((j : Int) - c) : Int) := by
  have hrect : Rect (patternGrid rows cols r c P) rows cols := tabulate_rect rows cols _
  unfold nextCell
  rw [countLiveNeighbors_rect _ rows cols hrect (by omega)]
  have hcell : cellAt (patternGrid rows cols r c P) i j = P ((i : Int) - r) ((j : Int) - c) :=
    cellAt_tabulate rows cols _ i j hi hj
  have hcount : liveNeighborsSpec (patternGrid rows cols r c P) (Int.ofNat i) (Int.ofNat j) =
      patternCount P ((i : Int) - r) ((j : Int) - c) := by
    unfold liveNeighborsSpec patternCount
    apply List.countP_congr
    intro d _
    have e1 : Int.ofNat i + d.1 - r = (i : Int) - r + d.1 := by
      simp only [Int.ofNat_eq_coe]; ring
    have e2 : Int.ofNat j + d.2 - c = (j : Int) - c + d.2 := by
      simp only [Int.ofNat_eq_coe]; ring
    rw [beq_iff_eq, readCell_patternGrid rows cols r c P hP, e1, e2]
  rw [hcell, hcount]
  rfl

theorem updateGrid_patternGrid (rows cols : Nat) (r c : Int) (P Q : Int → Int → Bool)
    (hpos : 0 < rows)
    (hP : ∀ a b, P a b = true → 0 ≤ r + a ∧ r + a < rows ∧ 0 ≤ c + b ∧ c + b < cols)
    (hQ : ∀ a b, lifeRule (P a b) (patternCount P a b : Int) = Q a b) :
    updateGrid (patternGrid rows cols r c P) = some (patternGrid rows cols r c Q) := by
  rw [updateGrid_rect (patternGrid rows cols r c P) rows cols (tabulate_rect rows cols _) hpos]
  congr 1
  unfold patternGrid
  apply tabulate_congr
  intro i j hi hj
  have := nextCell_patternGrid rows cols r c P hP i j hi hj
  unfold patternGrid at this
  rw [this, hQ]

theorem horizontalTriple_rule (a b : Int) :
    lifeRule (horizontalTriple a b) (patternCount horizontalTriple a b : Int) =
      verticalTriple a b := by
  by_cases hnear : (-1 ≤ a ∧ a ≤ 1) ∧ (-2 ≤ b ∧ b ≤ 2)
  · obtain ⟨⟨ha1, ha2⟩, hb1, hb2⟩ := hnear
    interval_cases a <;> interval_cases b <;> decide
  · have hzero : patternCount horizontalTriple a b = 0 := by
      unfold patternCount
      rw [List.countP_eq_zero]
      intro d hd
      simp only [neighborOffsets, List.mem_cons, List.mem_singleton, List.not_mem_nil,
        or_false] at hd
      simp only [horizontalTriple, decide_eq_true_eq]
      rcases hd with rfl | rfl | rfl | rfl | rfl | rfl | rfl | rfl <;> simp only <;> omega
    have hh : horizontalTriple a b = false := by
      simp only [horizontalTriple, decide_eq_false_iff_not]
      omega
    have hv : verticalTriple a b = false := by
      simp only [verticalTriple, decide_eq_false_iff_not]
      omega
    rw [hzero, hh, hv]
    rfl

theorem verticalTriple_rule (a b : Int) :
    lifeRule (verticalTriple a b) (patternCount verticalTriple a b : Int) =
      horizontalTriple a b := by
  by_cases hnear : (-2 ≤ a ∧ a ≤ 2) ∧ (-1 ≤ b ∧ b ≤ 1)
  · obtain ⟨⟨ha1, ha2⟩, hb1, hb2⟩ := hnear
    interval_cases a <;> interval_cases b <;> decide
  · have hzero : patternCount verticalTriple a b = 0 := by
      unfold patternCount
      rw [List.countP_eq_zero]
      intro d hd
      simp only [neighborOffsets, List.mem_cons, List.mem_singleton, List.not_mem_nil,
        or_false] at hd
      simp only [verticalTriple, decide_eq_true_eq]
      rcases hd with rfl | rfl | rfl | rfl | rfl | rfl | rfl | rfl <;> simp only <;> omega
    have hh : horizontalTriple a b = false := by
      simp only [horizontalTriple, decide_eq_false_iff_not]
      omega
    have hv : verticalTriple a b = false := by
      simp only [verticalTriple, decide_eq_false_iff_not]
      omega
    rw [hzero, hh, hv]
    rfl

/-- A rectangular grid is the placed pattern `P` when its live cells are exactly the
positions of `P`. -/
theorem eq_patternGrid (g : Grid) (rows cols : Nat) (h : Rect g rows cols) (r c : Int)
    (P : Int → Int → Bool)
    (hlive : ∀ y x : Int, readCell g y x = some true ↔ P (y - r) (x - c) = true) :
    g = patternGrid rows cols r c P := by
  conv_lhs => rw [rect_eq_tabulate g rows cols h]
  unfold patternGrid
  apply tabulate_congr
  intro i j hi hj
  have hread : readCell g (i : Int) (j : Int) = some (cellAt g i j) := by
    rw [readCell_rect g rows cols h]
    have hin : 0 ≤ (i : Int) ∧ (i : Int) < rows ∧ 0 ≤ (j : Int) ∧ (j : Int) < cols := by omega
    simp only [hin, and_self, if_true, Int.toNat_ofNat]
  have hiff := hlive (i : Int) (j : Int)
  rw [hread] at hiff
  cases hc : cellAt g i j <;> cases hp : P ((i : Int) - r) ((j : Int) - c) <;>
    simp [hc, hp] at hiff ⊢

theorem horizontalTriple_inside (rows cols r c : Nat) (hr : 1 ≤ r ∧ r + 1 < rows)
    (hc : 1 ≤ c ∧ c + 1 < cols) (a b : Int) (h : horizontalTriple a b = true) :
    0 ≤ (r : Int) + a ∧ (r : Int) + a < rows ∧ 0 ≤ (c : Int) + b ∧ (c : Int) + b < cols := by
  simp only [horizontalTriple, decide_eq_true_eq] at h
  refine ⟨?_, ?_, ?_, ?_⟩ <;> omega

theorem verticalTriple_inside (rows cols r c : Nat) (hr : 1 ≤ r ∧ r + 1 < rows)
    (hc : 1 ≤ c ∧ c + 1 < cols) (a b : Int) (h : verticalTriple a b = true) :
    0 ≤ (r : Int) + a ∧ (r : Int) + a < rows ∧ 0 ≤ (c : Int) + b ∧ (c : Int) + b < cols := by
  simp only [verticalTriple, decide_eq_true_eq] at h
  refine ⟨?_, ?_, ?_, ?_⟩ <;> omega

theorem horizontal_ne_vertical (rows cols r c : Nat) (hr : 1 ≤ r ∧ r + 1 < rows)
    (hc : 1 ≤ c ∧ c + 1 < cols) :
    patternGrid rows cols r c verticalTriple ≠ patternGrid rows cols r c horizontalTriple := by
  intro heq
  have h1 : cellAt (patternGrid rows cols r c verticalTriple) r (c + 1) = false := by
    unfold patternGrid
    rw [cellAt_tabulate rows cols _ r (c + 1) (by omega) (by omega)]
    simp [verticalTriple]
  have h2 : cellAt (patternGrid rows cols r c horizontalTriple) r (c + 1) = true := by
    unfold patternGrid
    rw [cellAt_tabulate rows cols _ r (c + 1) (by omega) (by omega)]
    simp [horizontalTriple]
  rw [heq, h2] at h1
  cases h1

theorem horizontal_to_vertical (rows cols r c : Nat) (hr : 1 ≤ r ∧ r + 1 < rows)
    (hc : 1 ≤ c ∧ c + 1 < cols) :
    updateGrid (patternGrid rows cols r c horizontalTriple) =
      some (patternGrid rows cols r c verticalTriple) :=
  updateGrid_patternGrid rows cols r c horizontalTriple verticalTriple (by omega)
    (horizontalTriple_inside rows cols r c hr hc) horizontalTriple_rule

theorem vertical_to_horizontal (rows cols r c : Nat) (hr : 1 ≤ r ∧ r + 1 < rows)
    (hc : 1 ≤ c ∧ c + 1 < cols) :
    updateGrid (patternGrid rows cols r c verticalTriple) =
      some (patternGrid rows cols r c horizontalTriple) :=
  updateGrid_patternGrid rows cols r c verticalTriple horizontalTriple (by omega)
    (verticalTriple_inside rows cols r c hr hc) verticalTriple_rule

theorem eq_horizontal (g : Grid) (rows cols : Nat) (h : Rect g rows cols) (r c : Nat)
    (hlive : ∀ y x : Int, readCell g y x = some true ↔
      (y = r ∧ (c : Int) - 1 ≤ x ∧ x ≤ (c : Int) + 1)) :
    g = patternGrid rows cols r c horizontalTriple := by
  apply eq_patternGrid g rows cols h
  intro y x
  rw [hlive]
  simp only [horizontalTriple, decide_eq_true_eq]
  constructor <;> intro h' <;> refine ⟨?_, ?_, ?_⟩ <;> omega

theorem eq_vertical (g : Grid) (rows cols : Nat) (h : Rect g rows cols) (r c : Nat)
    (hlive : ∀ y x : Int, readCell g y x = some true ↔
      (x = c ∧ (r : Int) - 1 ≤ y ∧ y ≤ (r : Int) + 1)) :
    g = patternGrid rows cols r c verticalTriple := by
  apply eq_patternGrid g rows cols h
  intro y x
  rw [hlive]
  simp only [verticalTriple, decide_eq_true_eq]
  constructor <;> intro h' <;> refine ⟨?_, ?_, ?_⟩ <;> omega

/-- C8: in a grid whose only live cells are three consecutive cells `(r, c - 1)`, `(r, c)`,
`(r, c + 1)` of a row `r` that is neither the first nor the last, `updateGrid` yields a
different grid, whose live cells are `(r - 1, c)`, `(r, c)`, `(r + 1, c)`, and a second
`updateGrid` yields the original grid. -/
theorem blinker_period_two (g : Grid) (rows cols : Nat) (h : Rect g rows cols) (r c : Nat)
    (hr : 1 ≤ r ∧ r + 1 < rows) (hc : 1 ≤ c ∧ c + 1 < cols)
    (hlive : ∀ y x : Int, readCell g y x = some true ↔
      (y = r ∧ (c : Int) - 1 ≤ x ∧ x ≤ (c : Int) + 1)) :
    ∃ g1, updateGrid g = some g1 ∧ g1 ≠ g ∧
      (∀ y x : Int, readCell g1 y x = some true ↔
        (x = c ∧ (r : Int) - 1 ≤ y ∧ y ≤ (r : Int) + 1)) ∧
      updateGrid g1 = some g := by
  have hg := eq_horizontal g rows cols h r c hlive
  refine ⟨patternGrid rows cols r c verticalTriple, ?_, ?_, ?_, ?_⟩
  · rw [hg]
    exact horizontal_to_vertical rows cols r c hr hc
  · rw [hg]
    exact horizontal_ne_vertical rows cols r c hr hc
  · intro y x
    rw [readCell_patternGrid rows cols r c verticalTriple
      (verticalTriple_inside rows cols r c hr hc)]
    simp only [verticalTriple, decide_eq_true_eq]
    constructor <;> intro h' <;> refine ⟨?_, ?_, ?_⟩ <;> omega
  · rw [hg]
    exact vertical_to_horizontal rows cols r c hr hc

theorem exampleBlinker_live (y x : Int) :
    readCell exampleBlinker y x = some true ↔
      (y = ((1 : Nat) : Int) ∧ (((1 : Nat) : Int)) - 1 ≤ x ∧ x ≤ (((1 : Nat) : Int)) + 1) := by
  have hread := readCell_rect exampleBlinker 3 3 (by decide) y x
  rw [hread]
  by_cases hin : 0 ≤ y ∧ y < ((3 : Nat) : Int) ∧ 0 ≤ x ∧ x < ((3 : Nat) : Int)
  · obtain ⟨h1, h2, h3, h4⟩ := hin
    simp only [Nat.cast_ofNat] at h2 h4
    interval_cases y <;> interval_cases x <;> decide
  · simp only [hin, if_false]
    constructor
    · intro h'
      cases h'
    · intro h'
      exfalso
      apply hin
      simp only [Nat.cast_ofNat, Nat.cast_one] at h' ⊢
      omega

theorem blinker_period_two_witness :
    Rect exampleBlinker 3 3 ∧
    ∃ g1, updateGrid exampleBlinker = some g1 ∧ g1 ≠ exampleBlinker ∧
      (∀ y x : Int, readCell g1 y x = some true ↔
        (x = ((1 : Nat) : Int) ∧ (((1 : Nat) : Int)) - 1 ≤ y ∧ y ≤ (((1 : Nat) : Int)) + 1)) ∧
      updateGrid g1 = some exampleBlinker :=
  ⟨by decide,
    blinker_period_two exampleBlinker 3 3 (by decide) 1 1 (by decide) (by decide)
      exampleBlinker_live⟩

theorem rowHasLive_false (row : List Bool) (h : rowHasLive row = false) :
    ∀ cell ∈ row, cell = false := by
  induction row with
  | nil =>
    intro cell hcell
    cases hcell
  | cons b rest ih =>
    intro cell hcell
    cases b with
    | true => simp [rowHasLive] at h
    | false =>
      simp only [rowHasLive] at h
      rcases List.mem_cons.1 hcell with rfl | hmem
      · rfl
      · exact ih h cell hmem

theorem dead_of_isEmpty (g : Grid) (h : isEmpty g = true) :
    ∀ row ∈ g, ∀ cell ∈ row, cell = false := by
  induction g with
  | nil =>
    intro row hrow
    cases hrow
  | cons first rest ih =>
    intro row hrow
    cases hf : rowHasLive first with
    | true => simp [isEmpty, hf] at h
    | false =>
      simp only [isEmpty, hf] at h
      rcases List.mem_cons.1 hrow with rfl | hmem
      · exact rowHasLive_false _ hf
      · exact ih h row hmem

theorem isEmpty_false_of_live (g : Grid) (y x : Int) (h : readCell g y x = some true) :
    isEmpty g = false := by
  cases he : isEmpty g with
  | false => rfl
  | true => exact absurd h (readCell_ne_true_of_dead g (dead_of_isEmpty g he) y x)

/-- Three ticks on a grid that `updateGrid` swaps with a different grid: two steps, then
a stop by the loop branch on the initial grid. -/
theorem two_cycle_run (s : State) (g1 : Grid) (rows cols : Nat)
    (hrect : Rect s.filled rows cols) (hrect1 : Rect g1 rows cols)
    (hrun : s.running = true) (hstop : s.stopped = false) (hhist : s.previousStates = ∅)
    (hne : g1 ≠ s.filled) (he : isEmpty s.filled = false) (he1 : isEmpty g1 = false)
    (hu : updateGrid s.filled = some g1) (hu1 : updateGrid g1 = some s.filled) :
    ∃ t1 t2 t3, tick s = some t1 ∧ tick t1 = some t2 ∧ tick t2 = some t3 ∧
      runTicks 3 s = some t3 ∧
      t1.stopped = false ∧ t1.filled = g1 ∧ t1.previousStates = {gridToString s.filled} ∧
      t2.stopped = false ∧ t2.filled = s.filled ∧
      t2.previousStates = {gridToString g1, gridToString s.filled} ∧
      gridToString t2.filled ∈ t2.previousStates ∧
      t3.stopped = true ∧ t3.filled = s.filled ∧ t3.previousStates = t2.previousStates ∧
      t3.output = s.output ++ [loopMsg] := by
  have hkey : gridToString g1 ≠ gridToString s.filled := fun hk =>
    hne (gridToString_injective g1 s.filled rows cols hrect1 hrect hk)
  have h1 : tick s = some { s with previousStates := {gridToString s.filled}, filled := g1 } := by
    simp [tick, hrun, hstop, hhist, he, hu]
  have h2 : tick { s with previousStates := {gridToString s.filled}, filled := g1 } =
      some { s with previousStates := {gridToString g1, gridToString s.filled} } := by
    simp [tick, hrun, hstop, hkey, he1, hu1]
  have h3 : tick { s with previousStates := {gridToString g1, gridToString s.filled} } =
      some { s with previousStates := {gridToString g1, gridToString s.filled},
                    output := s.output ++ [loopMsg], stopped := true } := by
    simp [tick, hrun, hstop]
  refine ⟨_, _, _, h1, h2, h3, ?_, hstop, rfl, rfl, hstop, rfl, rfl, ?_, rfl, rfl, rfl, rfl⟩
  · simp only [runTicks, h1, h2, h3]
  · simp

/-- C9: a run started with an empty history on a grid whose only live cells are an
interior blinker (three cells in a row or in a column around a centre off the border)
is stopped as a loop at the third tick: ticks one and two each record the key and step
the grid without stopping, tick three finds the key recorded and sets `stopped`, the
grid being the initial blinker. -/
theorem blinker_run_stops_at_third_tick (s : State) (rows cols : Nat)
    (hrect : Rect s.filled rows cols) (r c : Nat) (hr : 1 ≤ r ∧ r + 1 < rows)
    (hc : 1 ≤ c ∧ c + 1 < cols) (hrun : s.running = true) (hstop : s.stopped = false)
    (hhist : s.previousStates = ∅)
    (hlive : (∀ y x : Int, readCell s.filled y x = some true ↔
        (y = r ∧ (c : Int) - 1 ≤ x ∧ x ≤ (c : Int) + 1)) ∨
      (∀ y x : Int, readCell s.filled y x = some true ↔
        (x = c ∧ (r : Int) - 1 ≤ y ∧ y ≤ (r : Int) + 1))) :
    ∃ t1 t2 t3, tick s = some t1 ∧ tick t1 = some t2 ∧ tick t2 = some t3 ∧
      runTicks 3 s = some t3 ∧
      t1.stopped = false ∧ updateGrid s.filled = some t1.filled ∧
      t1.previousStates = {gridToString s.filled} ∧
      t2.stopped = false ∧ updateGrid t1.filled = some t2.filled ∧ t2.filled = s.filled ∧
      t2.previousStates = {gridToString t1.filled, gridToString s.filled} ∧
      gridToString t2.filled ∈ t2.previousStates ∧
      t3.stopped = true ∧ t3.filled = s.filled ∧ t3.previousStates = t2.previousStates ∧
      t3.output = s.output ++ [loopMsg] := by
  have hcentre : readCell s.filled (r : Int) (c : Int) = some true := by
    rcases hlive with h | h
    · rw [h]
      omega
    · rw [h]
      omega
  have he : isEmpty s.filled = false := isEmpty_false_of_live s.filled _ _ hcentre
  have hmain : ∃ g1, Rect g1 rows cols ∧ g1 ≠ s.filled ∧ isEmpty g1 = false ∧
      updateGrid s.filled = some g1 ∧ updateGrid g1 = some s.filled := by
    rcases hlive with h | h
    · have hg := eq_horizontal s.filled rows cols hrect r c h
      refine ⟨patternGrid rows cols r c verticalTriple, tabulate_rect rows cols _, ?_, ?_, ?_, ?_⟩
      · rw [hg]
        exact horizontal_ne_vertical rows cols r c hr hc
      · apply isEmpty_false_of_live _ (r : Int) (c : Int)
        rw [readCell_patternGrid rows cols r c verticalTriple
          (verticalTriple_inside rows cols r c hr hc)]
        simp [verticalTriple]
      · rw [hg]
        exact horizontal_to_vertical rows cols r c hr hc
      · rw [hg]
        exact vertical_to_horizontal rows cols r c hr hc
    · have hg := eq_vertical s.filled rows cols hrect r c h
      refine ⟨patternGrid rows cols r c horizontalTriple, tabulate_rect rows cols _, ?_, ?_, ?_,
        ?_⟩
      · rw [hg]
        exact (horizontal_ne_vertical rows cols r c hr hc).symm
      · apply isEmpty_false_of_live _ (r : Int) (c : Int)
        rw [readCell_patternGrid rows cols r c horizontalTriple
          (horizontalTriple_inside rows cols r c hr hc)]
        simp [horizontalTriple]
      · rw [hg]
        exact vertical_to_horizontal rows cols r c hr hc
      · rw [hg]
        exact horizontal_to_vertical rows cols r c hr hc
  obtain ⟨g1, hrect1, hne, he1, hu, hu1⟩ := hmain
  obtain ⟨t1, t2, t3, h1, h2, h3, hrun3, hs1, hf1, hp1, hs2, hf2, hp2, hin2, hs3, hf3, hp3, ho3⟩ :=
    two_cycle_run s g1 rows cols hrect hrect1 hrun hstop hhist hne he he1 hu hu1
  refine ⟨t1, t2, t3, h1, h2, h3, hrun3, hs1, ?_, hp1, hs2, ?_, hf2, ?_, hin2, hs3, hf3, hp3, ho3⟩
  · rw [hf1]
    exact hu
  · rw [hf1, hf2]
    exact hu1
  · rw [hf1]
    exact hp2

theorem blinker_run_stops_at_third_tick_witness :
    Rect exampleRunning.filled 3 3 ∧
    ∃ t1 t2 t3, tick exampleRunning = some t1 ∧ tick t1 = some t2 ∧ tick t2 = some t3 ∧
      runTicks 3 exampleRunning = some t3 ∧
      t1.stopped = false ∧ updateGrid exampleRunning.filled = some t1.filled ∧
      t1.previousStates = {gridToString exampleRunning.filled} ∧
      t2.stopped = false ∧ updateGrid t1.filled = some t2.filled ∧
      t2.filled = exampleRunning.filled ∧
      t2.previousStates = {gridToString t1.filled, gridToString exampleRunning.filled} ∧
      gridToString t2.filled ∈ t2.previousStates ∧
      t3.stopped = true ∧ t3.filled = exampleRunning.filled ∧
      t3.previousStates = t2.previousStates ∧
      t3.output = exampleRunning.output ++ [loopMsg] :=
  ⟨by decide,
    blinker_run_stops_at_third_tick exampleRunning 3 3 (by decide) 1 1 (by decide) (by decide)
      rfl rfl rfl (Or.inl exampleBlinker_live)⟩

/-! ## A single live cell -/

theorem singleCell_rule (a b : Int) :
    lifeRule (singleCell a b) (patternCount singleCell a b : Int) = noCell a b := by
  by_cases hnear : (-1 ≤ a ∧ a ≤ 1) ∧ (-1 ≤ b ∧ b ≤ 1)
  · obtain ⟨⟨ha1, ha2⟩, hb1, hb2⟩ := hnear
    interval_cases a <;> interval_cases b <;> decide
  · have hzero : patternCount singleCell a b = 0 := by
      unfold patternCount
      rw [List.countP_eq_zero]
      intro d hd
      simp only [neighborOffsets, List.mem_cons, List.mem_singleton, List.not_mem_nil,
        or_false] at hd
      simp only [singleCell, decide_eq_true_eq]
      rcases hd with rfl | rfl | rfl | rfl | rfl | rfl | rfl | rfl <;> simp only <;> omega
    have hs : singleCell a b = false := by
      simp only [singleCell, decide_eq_false_iff_not]
      omega
    rw [hzero, hs]
    rfl

theorem patternGrid_noCell_dead (rows cols : Nat) (r c : Int) :
    ∀ row ∈ patternGrid rows cols r c noCell, ∀ cell ∈ row, cell = false := by
  intro row hrow cell hcell
  simp only [patternGrid, tabulate, List.mem_map] at hrow
  obtain ⟨i, _, rfl⟩ := hrow
  simp only [List.mem_map] at hcell
  obtain ⟨j, _, rfl⟩ := hcell
  rfl

/-- C11: a rectangular grid with exactly one live cell, wherever it lies, has no live
cell after one `updateGrid`: `isEmpty` returns `true` on the result. -/
theorem single_cell_dies (g : Grid) (rows cols : Nat) (h : Rect g rows cols) (r c : Int)
    (hlive : ∀ y x : Int, readCell g y x = some true ↔ (y = r ∧ x = c)) :
    ∃ next, updateGrid g = some next ∧ isEmpty next = true ∧
      ∀ y x : Int, readCell next y x ≠ some true := by
  have hcell : readCell g r c = some true := (hlive r c).2 ⟨rfl, rfl⟩
  have hin : 0 ≤ r ∧ r < rows ∧ 0 ≤ c ∧ c < cols := by
    rw [readCell_rect g rows cols h] at hcell
    by_contra hcon
    simp [hcon] at hcell
  have hg : g = patternGrid rows cols r c singleCell := by
    apply eq_patternGrid g rows cols h
    intro y x
    rw [hlive]
    simp only [singleCell, decide_eq_true_eq]
    constructor <;> intro h' <;> constructor <;> omega
  have hinside : ∀ a b, singleCell a b = true →
      0 ≤ r + a ∧ r + a < rows ∧ 0 ≤ c + b ∧ c + b < cols := by
    intro a b hab
    simp only [singleCell, decide_eq_true_eq] at hab
    refine ⟨?_, ?_, ?_, ?_⟩ <;> omega
  have hu := updateGrid_patternGrid rows cols r c singleCell noCell (by omega) hinside
    singleCell_rule
  refine ⟨patternGrid rows cols r c noCell, by rw [hg]; exact hu, ?_, ?_⟩
  · exact isEmpty_of_dead _ (patternGrid_noCell_dead rows cols r c)
  · exact readCell_ne_true_of_dead _ (patternGrid_noCell_dead rows cols r c)

theorem exampleCorner_live (y x : Int) :
    readCell exampleCorner y x = some true ↔ (y = 0 ∧ x = 2) := by
  have hread := readCell_rect exampleCorner 3 3 (by decide) y x
  rw [hread]
  by_cases hin : 0 ≤ y ∧ y < ((3 : Nat) : Int) ∧ 0 ≤ x ∧ x < ((3 : Nat) : Int)
  · obtain ⟨h1, h2, h3, h4⟩ := hin
    simp only [Nat.cast_ofNat] at h2 h4
    interval_cases y <;> interval_cases x <;> decide
  · simp only [hin, if_false]
    constructor
    · intro h'
      cases h'
    · intro h'
      exfalso
      apply hin
      simp only [Nat.cast_ofNat]
      omega

theorem single_cell_dies_witness :
    Rect exampleCorner 3 3 ∧
    ∃ next, updateGrid exampleCorner = some next ∧ isEmpty next = true ∧
      ∀ y x : Int, readCell next y x ≠ some true :=
  ⟨by decide, single_cell_dies exampleCorner 3 3 (by decide) 0 2 exampleCorner_live⟩

/-! ## Totality of the stepper, and still lifes -/

/-- C15: on a grid with at least one row whose rows all have the same length,
`countLiveNeighbors` at an in-range cell and `updateGrid` return a result: no element
access they perform is outside the bounds of its vector. -/
theorem updateGrid_countLiveNeighbors_total (g : Grid) (rows cols : Nat) (h : Rect g rows cols)
    (hpos : 0 < rows) :
    (∀ r c : Int, 0 ≤ r ∧ r < rows → 0 ≤ c ∧ c < cols →
        ∃ n, countLiveNeighbors g r c = some n ∧
          ∃ b, readCell g r c = some b ∧
            ∀ (next : Grid) (v : Bool), Rect next rows cols →
              ∃ next', writeCell next r c v = some next') ∧
      ∃ next, updateGrid g = some next := by
  refine ⟨?_, tabulate rows cols (nextCell g), updateGrid_rect g rows cols h hpos⟩
  intro r c hr hc
  refine ⟨_, countLiveNeighbors_rect g rows cols h hpos r c, cellAt g r.toNat c.toNat, ?_, ?_⟩
  · rw [readCell_rect g rows cols h]
    simp [hr, hc]
  · intro next v hnext
    rw [rect_eq_tabulate next rows cols hnext]
    have e1 : r = Int.ofNat r.toNat := by simp [hr.1]
    have e2 : c = Int.ofNat c.toNat := by simp [hc.1]
    rw [e1, e2]
    exact ⟨_, writeCell_tabulate rows cols _ r.toNat c.toNat _ (by omega) (by omega)⟩

theorem updateGrid_countLiveNeighbors_total_witness :
    Rect exampleBlinker 3 3 ∧ updateGrid exampleRagged = none ∧
    ((∀ r c : Int, 0 ≤ r ∧ r < ((3 : Nat) : Int) → 0 ≤ c ∧ c < ((3 : Nat) : Int) →
        ∃ n, countLiveNeighbors exampleBlinker r c = some n ∧
          ∃ b, readCell exampleBlinker r c = some b ∧
            ∀ (next : Grid) (v : Bool), Rect next 3 3 →
              ∃ next', writeCell next r c v = some next') ∧
      ∃ next, updateGrid exampleBlinker = some next) :=
  ⟨by decide, by decide,
    updateGrid_countLiveNeighbors_total exampleBlinker 3 3 (by decide) (by decide)⟩

theorem tick_step (s : State) (next : Grid) (hrun : s.running = true)
    (hstop : s.stopped = false) (hmem : gridToString s.filled ∉ s.previousStates)
    (he : isEmpty s.filled = false) (hu : updateGrid s.filled = some next) :
    tick s = some { s with previousStates := insert (gridToString s.filled) s.previousStates,
                           filled := next } := by
  simp [tick, hrun, hstop, hmem, he, hu]

theorem tick_loop (s : State) (hrun : s.running = true) (hstop : s.stopped = false)
    (hmem : gridToString s.filled ∈ s.previousStates) :
    tick s = some { s with output := s.output ++ [loopMsg], stopped := true } := by
  simp [tick, hrun, hstop, hmem]

theorem tick_extinct (s : State) (hrun : s.running = true) (hstop : s.stopped = false)
    (hmem : gridToString s.filled ∉ s.previousStates) (he : isEmpty s.filled = true) :
    tick s = some { s with output := s.output ++ [emptyMsg], stopped := true } := by
  simp [tick, hrun, hstop, hmem, he]

/-- C16: a run started with an empty history on a grid that has a live cell and that
`updateGrid` returns unchanged is stopped as a loop by the second tick: the first tick
records the key and steps once, the second finds the key and stops, the grid being
the initial one and the history holding the one key. -/
theorem still_life_stops_at_second_tick (s : State) (hrun : s.running = true)
    (hstop : s.stopped = false) (hhist : s.previousStates = ∅)
    (hlive : ∃ y x : Int, readCell s.filled y x = some true)
    (hfix : updateGrid s.filled = some s.filled) :
    ∃ t1 t2, tick s = some t1 ∧ tick t1 = some t2 ∧ runTicks 2 s = some t2 ∧
      t1.stopped = false ∧ t1.filled = s.filled ∧
      t1.previousStates = {gridToString s.filled} ∧ t1.output = s.output ∧
      t2.stopped = true ∧ t2.filled = s.filled ∧
      t2.previousStates = {gridToString s.filled} ∧ t2.previousStates.card = 1 ∧
      t2.output = s.output ++ [loopMsg] := by
  obtain ⟨y, x, hyx⟩ := hlive
  have he : isEmpty s.filled = false := isEmpty_false_of_live s.filled y x hyx
  have h1 := tick_step s s.filled hrun hstop (by rw [hhist]; exact Finset.not_mem_empty _) he hfix
  rw [hhist] at h1
  have h2 := tick_loop
    { s with previousStates := insert (gridToString s.filled) ∅, filled := s.filled }
    hrun hstop (Finset.mem_insert_self _ _)
  refine ⟨_, _, h1, h2, ?_, hstop, rfl, rfl, rfl, rfl, rfl, rfl, ?_, rfl⟩
  · simp only [runTicks, hhist, h1, h2]
  · simp

theorem still_life_stops_at_second_tick_witness :
    (∃ y x : Int, readCell exampleBlockRun.filled y x = some true) ∧
    updateGrid exampleBlockRun.filled = some exampleBlockRun.filled ∧
    ∃ t1 t2, tick exampleBlockRun = some t1 ∧ tick t1 = some t2 ∧
      runTicks 2 exampleBlockRun = some t2 ∧
      t1.stopped = false ∧ t1.filled = exampleBlockRun.filled ∧
      t1.previousStates = {gridToString exampleBlockRun.filled} ∧
      t1.output = exampleBlockRun.output ∧
      t2.stopped = true ∧ t2.filled = exampleBlockRun.filled ∧
      t2.previousStates = {gridToString exampleBlockRun.filled} ∧
      t2.previousStates.card = 1 ∧
      t2.output = exampleBlockRun.output ++ [loopMsg] :=
  ⟨⟨1, 1, by decide⟩, by decide,
    still_life_stops_at_second_tick exampleBlockRun rfl rfl rfl ⟨1, 1, by decide⟩ (by decide)⟩

/-! ## The layout of the key -/

theorem flatten_length_rect (g : Grid) (rows cols : Nat) (h : Rect g rows cols) :
    g.flatten.length = rows * cols := by
  induction g generalizing rows with
  | nil =>
    have : rows = 0 := h.1.symm
    subst this
    simp
  | cons row rest ih =>
    have hl : row.length = cols := h.2 row (List.mem_cons_self _ _)
    have hrest : Rect rest rest.length cols :=
      ⟨rfl, fun r hr => h.2 r (List.mem_cons_of_mem _ hr)⟩
    have hrows : rows = rest.length + 1 := h.1.symm
    rw [List.flatten_cons, List.length_append, ih rest.length hrest, hl, hrows]
    ring

theorem flatten_getElem?_rect (g : Grid) (rows cols : Nat) (h : Rect g rows cols) (r c : Nat)
    (hr : r < rows) (hc : c < cols) : g.flatten[r * cols + c]? = some (cellAt g r c) := by
  induction g generalizing rows r with
  | nil =>
    have : rows = 0 := h.1.symm
    omega
  | cons row rest ih =>
    have hl : row.length = cols := h.2 row (List.mem_cons_self _ _)
    have hrest : Rect rest rest.length cols :=
      ⟨rfl, fun r hr => h.2 r (List.mem_cons_of_mem _ hr)⟩
    have hrows : rows = rest.length + 1 := h.1.symm
    rw [List.flatten_cons]
    cases r with
    | zero =>
      rw [List.getElem?_append_left (by rw [hl]; omega)]
      have hc' : c < row.length := by omega
      simp [cellAt, List.getElem?_eq_getElem hc']
    | succ k =>
      have hidx : (k + 1) * cols + c = row.length + (k * cols + c) := by rw [hl]; ring
      rw [hidx, List.getElem?_append_right (by omega), Nat.add_sub_cancel_left,
        ih rest.length hrest k (by omega)]
      simp [cellAt]

/-- C17: for a grid of `rows` by `cols` cells, `gridToString` returns a string of
`rows * cols` characters, each `'0'` or `'1'`, whose character at index `r * cols + c` is
`'1'` exactly when cell `(r, c)` is live. -/
theorem gridToString_row_major (g : Grid) (rows cols : Nat) (h : Rect g rows cols) :
    (gridToString g).length = rows * cols ∧
      (∀ ch ∈ (gridToString g).data, ch = '0' ∨ ch = '1') ∧
      ∀ r c : Nat, r < rows → c < cols →
        (∃ ch, (gridToString g).data[r * cols + c]? = some ch) ∧
        ((gridToString g).data[r * cols + c]? = some '1' ↔
          readCell g (r : Int) (c : Int) = some true) ∧
        ((gridToString g).data[r * cols + c]? = some '0' ↔
          readCell g (r : Int) (c : Int) = some false) := by
  have hread : ∀ r c : Nat, r < rows → c < cols →
      readCell g (r : Int) (c : Int) = some (cellAt g r c) := by
    intro r c hr hc
    rw [readCell_rect g rows cols h]
    have hin : 0 ≤ (r : Int) ∧ (r : Int) < rows ∧ 0 ≤ (c : Int) ∧ (c : Int) < cols := by omega
    simp only [hin, and_self, if_true, Int.toNat_ofNat]
  refine ⟨?_, ?_, ?_⟩
  · show (gridToString g).data.length = rows * cols
    rw [gridToString_data, List.length_map, flatten_length_rect g rows cols h]
  · intro ch hch
    rw [gridToString_data, List.mem_map] at hch
    obtain ⟨b, _, rfl⟩ := hch
    cases b
    · exact Or.inl rfl
    · exact Or.inr rfl
  · intro r c hr hc
    have hidx : (gridToString g).data[r * cols + c]? = some (cellChar (cellAt g r c)) := by
      rw [gridToString_data, List.getElem?_map, flatten_getElem?_rect g rows cols h r c hr hc]
      rfl
    rw [hidx, hread r c hr hc]
    refine ⟨⟨_, rfl⟩, ?_, ?_⟩
    · cases cellAt g r c <;> decide
    · cases cellAt g r c <;> decide

theorem gridToString_row_major_witness :
    Rect exampleBlinker 3 3 ∧ gridToString exampleBlinker = "000111000" ∧
    (gridToString exampleBlinker).length = 3 * 3 ∧
      (∀ ch ∈ (gridToString exampleBlinker).data, ch = '0' ∨ ch = '1') ∧
      ∀ r c : Nat, r < 3 → c < 3 →
        (∃ ch, (gridToString exampleBlinker).data[r * 3 + c]? = some ch) ∧
        ((gridToString exampleBlinker).data[r * 3 + c]? = some '1' ↔
          readCell exampleBlinker (r : Int) (c : Int) = some true) ∧
        ((gridToString exampleBlinker).data[r * 3 + c]? = some '0' ↔
          readCell exampleBlinker (r : Int) (c : Int) = some false) :=
  ⟨by decide, by decide, gridToString_row_major exampleBlinker 3 3 (by decide)⟩

/-! ## Mirror symmetry -/

theorem mirror_tabulate (rows cols : Nat) (f : Nat → Nat → Bool) :
    mirror (tabulate rows cols f) = tabulate rows cols (fun r c => f r (cols - 1 - c)) := by
  unfold mirror tabulate
  rw [List.map_map]
  apply List.map_congr_left
  intro r _
  show ((List.range cols).map (fun c => f r c)).reverse = _
  apply List.ext_getElem?
  intro c
  by_cases hc : c < cols
  · rw [List.getElem?_reverse (by simpa using hc)]
    simp only [List.length_map, List.length_range, List.getElem?_map]
    rw [List.getElem?_range (by omega), List.getElem?_range hc]
    rfl
  · rw [List.getElem?_eq_none (by simp; omega), List.getElem?_eq_none (by simp; omega)]

theorem mirror_rect (g : Grid) (rows cols : Nat) (h : Rect g rows cols) :
    Rect (mirror g) rows cols := by
  rw [rect_eq_tabulate g rows cols h, mirror_tabulate]
  exact tabulate_rect rows cols _

theorem readCell_mirror (g : Grid) (rows cols : Nat) (h : Rect g rows cols) (y x : Int) :
    readCell (mirror g) y x = readCell g y ((cols : Int) - 1 - x) := by
  conv_lhs => rw [rect_eq_tabulate g rows cols h, mirror_tabulate]
  conv_rhs => rw [rect_eq_tabulate g rows cols h]
  rw [readCell_tabulate, readCell_tabulate]
  by_cases hin : 0 ≤ y ∧ y < rows ∧ 0 ≤ x ∧ x < cols
  · have hin' : 0 ≤ y ∧ y < rows ∧ 0 ≤ (cols : Int) - 1 - x ∧ (cols : Int) - 1 - x < cols := by
      omega
    have hidx : cols - 1 - x.toNat = ((cols : Int) - 1 - x).toNat := by omega
    simp only [hin, hin', and_self, if_true, hidx]
  · have hin' : ¬ (0 ≤ y ∧ y < rows ∧ 0 ≤ (cols : Int) - 1 - x ∧ (cols : Int) - 1 - x < cols) := by
      omega
    simp only [hin, hin', if_false]

theorem countP_offsets_flip (F : Int → Int → Bool) :
    neighborOffsets.countP (fun d => F d.1 (-d.2)) =
      neighborOffsets.countP (fun d => F d.1 d.2) := by
  simp only [neighborOffsets, List.countP_cons, List.countP_nil, neg_neg, neg_zero]
  omega

theorem liveNeighborsSpec_mirror (g : Grid) (rows cols : Nat) (h : Rect g rows cols)
    (r c : Int) :
    liveNeighborsSpec (mirror g) r c = liveNeighborsSpec g r ((cols : Int) - 1 - c) := by
  unfold liveNeighborsSpec
  rw [← countP_offsets_flip
    (fun dy dx => readCell g (r + dy) ((cols : Int) - 1 - c + dx) == some true)]
  apply List.countP_congr
  intro d _
  rw [readCell_mirror g rows cols h]
  have e : (cols : Int) - 1 - (c + d.2) = (cols : Int) - 1 - c + -d.2 := by ring
  rw [e]

theorem nextCell_mirror (g : Grid) (rows cols : Nat) (h : Rect g rows cols) (hpos : 0 < rows)
    (r c : Nat) (hr : r < rows) (hc : c < cols) :
    nextCell (mirror g) r c = nextCell g r (cols - 1 - c) := by
  have hm := mirror_rect g rows cols h
  unfold nextCell
  rw [countLiveNeighbors_rect (mirror g) rows cols hm hpos,
    countLiveNeighbors_rect g rows cols h hpos, liveNeighborsSpec_mirror g rows cols h]
  have hcell : cellAt (mirror g) r c = cellAt g r (cols - 1 - c) := by
    have := cellAt_tabulate rows cols (fun r c => cellAt g r (cols - 1 - c)) r c hr hc
    rw [← mirror_tabulate, ← rect_eq_tabulate g rows cols h] at this
    exact this
  have hidx : (cols : Int) - 1 - Int.ofNat c = Int.ofNat (cols - 1 - c) := by
    simp only [Int.ofNat_eq_coe]
    omega
  rw [hcell, hidx]

/-- C20: on a rectangular grid with at least one row, `updateGrid` of the grid with every
row reversed is `updateGrid` of the grid, with every row reversed. -/
theorem updateGrid_mirror (g : Grid) (rows cols : Nat) (h : Rect g rows cols)
    (hpos : 0 < rows) :
    ∃ next, updateGrid g = some next ∧ updateGrid (mirror g) = some (mirror next) := by
  refine ⟨tabulate rows cols (nextCell g), updateGrid_rect g rows cols h hpos, ?_⟩
  rw [updateGrid_rect (mirror g) rows cols (mirror_rect g rows cols h) hpos, mirror_tabulate]
  congr 1
  apply tabulate_congr
  intro r c hr hc
  exact nextCell_mirror g rows cols h hpos r c hr hc

theorem updateGrid_mirror_witness :
    Rect exampleSkew 2 3 ∧ mirror exampleSkew ≠ exampleSkew ∧
    ∃ next, updateGrid exampleSkew = some next ∧
      updateGrid (mirror exampleSkew) = some (mirror next) :=
  ⟨by decide, by decide, updateGrid_mirror exampleSkew 2 3 (by decide) (by decide)⟩

/-! ## Invariants of the main loop -/

theorem writeCell_rect (g : Grid) (rows cols : Nat) (h : Rect g rows cols) (row col : Int)
    (v : Bool) (hin : 0 ≤ row ∧ row < rows ∧ 0 ≤ col ∧ col < cols) :
    ∃ g', writeCell g row col v = some g' ∧ Rect g' rows cols ∧
      readCell g' row col = some v ∧
      ∀ y x : Int, ¬ (y = row ∧ x = col) → readCell g' y x = readCell g y x := by
  have e1 : row = Int.ofNat row.toNat := by simp [hin.1]
  have e2 : col = Int.ofNat col.toNat := by simp [hin.2.2.1]
  have hw := writeCell_tabulate rows cols (cellAt g) row.toNat col.toNat v (by omega) (by omega)
  rw [← rect_eq_tabulate g rows cols h, ← e1, ← e2] at hw
  refine ⟨_, hw, tabulate_rect rows cols _, ?_, ?_⟩
  · rw [readCell_tabulate]
    simp [hin]
  · intro y x hne
    rw [readCell_tabulate, readCell_rect g rows cols h]
    by_cases hyx : 0 ≤ y ∧ y < rows ∧ 0 ≤ x ∧ x < cols
    · have hne' : ¬ (y.toNat = row.toNat ∧ x.toNat = col.toNat) := by omega
      simp only [hyx, and_self, if_true, hne', if_false]
    · simp only [hyx, if_false]

theorem one_mem_key_iff (g : Grid) : '1' ∈ (gridToString g).data ↔ isEmpty g = false := by
  rw [gridToString_data]
  constructor
  · intro h
    obtain ⟨b, hb, hchar⟩ := List.mem_map.1 h
    have hbt : b = true := by
      cases b
      · exact absurd hchar (by decide)
      · rfl
    subst hbt
    obtain ⟨row, hrow, hcell⟩ := List.mem_flatten.1 hb
    cases he : isEmpty g with
    | false => rfl
    | true => exact absurd (dead_of_isEmpty g he row hrow true hcell) (by decide)
  · intro h
    by_contra hcon
    have hdead : ∀ row ∈ g, ∀ cell ∈ row, cell = false := by
      intro row hrow cell hcell
      cases cell with
      | false => rfl
      | true =>
        exfalso
        apply hcon
        exact List.mem_map.2 ⟨true, List.mem_flatten.2 ⟨row, hrow, hcell⟩, rfl⟩
    rw [isEmpty_of_dead g hdead] at h
    cases h

theorem initState_rect (rows cols : Nat) : Rect (initState rows cols).filled rows cols := by
  refine ⟨by simp [initState], ?_⟩
  intro r hr
  simp only [initState, List.mem_replicate] at hr
  rw [hr.2]
  simp

theorem inv_init (rows cols : Nat) : Inv rows cols (initState rows cols) := by
  refine ⟨initState_rect rows cols, ?_, ?_, ?_, ?_⟩
  · intro h
    cases h
  · intro _
    rfl
  · intro k hk
    exact absurd hk (Finset.not_mem_empty k)
  · refine ⟨(initState rows cols).filled, 0, rfl, ?_⟩
    intro k
    constructor
    · intro hk
      exact absurd hk (Finset.not_mem_empty k)
    · rintro ⟨i, _, hi, _⟩
      exact absurd hi (Nat.not_lt_zero i)

/-- An invariant state whose history is empty, seen from its own grid as generation 0. -/
theorem inv_of_editing (rows cols : Nat) (t : State) (hrect : Rect t.filled rows cols)
    (hstop : t.stopped = false) (hhist : t.previousStates = ∅) :
    Inv rows cols t := by
  refine ⟨hrect, ?_, fun _ => hhist, ?_, t.filled, 0, rfl, ?_⟩
  · intro h
    rw [hstop] at h
    cases h
  · intro k hk
    rw [hhist] at hk
    exact absurd hk (Finset.not_mem_empty k)
  · intro k
    rw [hhist]
    constructor
    · intro hk
      exact absurd hk (Finset.not_mem_empty k)
    · rintro ⟨i, _, hi, _⟩
      exact absurd hi (Nat.not_lt_zero i)

/-- A state that agrees with an invariant state on grid and history, is running when
stopped, and is editing only if that one is, is invariant. -/
theorem inv_of_same (rows cols : Nat) (s t : State) (h : Inv rows cols s)
    (hf : t.filled = s.filled) (hp : t.previousStates = s.previousStates)
    (hst : t.stopped = true → t.running = true)
    (hr : t.running = false → s.running = false) : Inv rows cols t := by
  obtain ⟨h1, _, h3, h4, h5⟩ := h
  refine ⟨by rw [hf]; exact h1, hst, ?_, by rw [hp]; exact h4, by rw [hf, hp]; exact h5⟩
  intro hrun
  rw [hp]
  exact h3 (hr hrun)

theorem inv_handleEvent (rows cols : Nat) (s : State) (e : Event) (h : Inv rows cols s) :
    ∃ t, handleEvent rows cols s e = some t ∧ Inv rows cols t := by
  cases e with
  | quitEvent =>
    exact ⟨{ s with quit := true }, rfl, inv_of_same rows cols s _ h rfl rfl h.2.1 id⟩
  | keyDown isReturn =>
    by_cases hc : isReturn = true ∧ s.running = false
    · refine ⟨{ s with running := true, output := s.output ++ [startedMsg] }, ?_,
        inv_of_same rows cols s _ h rfl rfl (fun _ => rfl) ?_⟩
      · simp [handleEvent, hc]
      · intro hcon
        cases hcon
    · exact ⟨s, by simp only [handleEvent, hc, if_false], h⟩
  | mouseButtonDown isLeft =>
    by_cases hc : isLeft = true ∧ s.running = false
    · exact ⟨{ s with mouseDown := true }, by simp [handleEvent, hc],
        inv_of_same rows cols s _ h rfl rfl h.2.1 id⟩
    · exact ⟨s, by simp only [handleEvent, hc, if_false], h⟩
  | mouseButtonUp isLeft =>
    cases isLeft with
    | true =>
      exact ⟨{ s with mouseDown := false }, by simp [handleEvent],
        inv_of_same rows cols s _ h rfl rfl h.2.1 id⟩
    | false => exact ⟨s, by simp [handleEvent], h⟩
  | mouseMotion x y =>
    by_cases hc : s.mouseDown = true ∧ s.running = false
    · by_cases hin : 0 ≤ Int.tdiv y GRID_SPACING ∧ Int.tdiv y GRID_SPACING < (rows : Int) ∧
          0 ≤ Int.tdiv x GRID_SPACING ∧ Int.tdiv x GRID_SPACING < (cols : Int)
      · obtain ⟨g', hw, hrect', _, _⟩ := writeCell_rect s.filled rows cols h.1 _ _ true hin
        have hstop : s.stopped = false := by
          cases hs : s.stopped with
          | false => rfl
          | true =>
            have := h.2.1 hs
            rw [hc.2] at this
            cases this
        refine ⟨{ s with filled := g' }, ?_,
          inv_of_editing rows cols _ hrect' hstop (h.2.2.1 hc.2)⟩
        simp only [handleEvent, hc, and_self, if_true, hin, hw, Option.map_some']
      · exact ⟨s, by simp only [handleEvent, hc, and_self, if_true, hin, if_false], h⟩
    · exact ⟨s, by simp only [handleEvent, hc, if_false], h⟩
  | other => exact ⟨s, rfl, h⟩

theorem inv_tick (rows cols : Nat) (s : State) (h : Inv rows cols s) :
    ∃ t, tick s = some t ∧ Inv rows cols t := by
  by_cases hc : s.running = true ∧ s.stopped = false
  · obtain ⟨hrun, hstop⟩ := hc
    by_cases hmem : gridToString s.filled ∈ s.previousStates
    · refine ⟨_, tick_loop s hrun hstop hmem,
        inv_of_same rows cols s _ h rfl rfl (fun _ => hrun) ?_⟩
      intro hcon
      rw [hrun] at hcon
      cases hcon
    · cases he : isEmpty s.filled with
      | true =>
        refine ⟨_, tick_extinct s hrun hstop hmem he,
          inv_of_same rows cols s _ h rfl rfl (fun _ => hrun) ?_⟩
        intro hcon
        rw [hrun] at hcon
        cases hcon
      | false =>
        have hpos := rows_pos_of_not_isEmpty s.filled rows cols h.1 he
        have hu := updateGrid_rect s.filled rows cols h.1 hpos
        obtain ⟨_, _, _, h4, g0, n, hgen, hkeys⟩ := h
        refine ⟨_, tick_step s _ hrun hstop hmem he hu, tabulate_rect rows cols _, ?_, ?_, ?_,
          g0, n + 1, ?_, ?_⟩
        · intro hcon
          rw [hstop] at hcon
          cases hcon
        · intro hcon
          rw [hrun] at hcon
          cases hcon
        · intro k hk
          rcases Finset.mem_insert.1 hk with rfl | hk'
          · exact (one_mem_key_iff s.filled).2 he
          · exact h4 k hk'
        · simp only [generation, hgen, hu]
        · intro k
          constructor
          · intro hk
            rcases Finset.mem_insert.1 hk with rfl | hk'
            · exact ⟨n, s.filled, Nat.lt_succ_self n, hgen, rfl⟩
            · obtain ⟨i, gi, hi, hgi, hkey⟩ := (hkeys k).1 hk'
              exact ⟨i, gi, Nat.lt_succ_of_lt hi, hgi, hkey⟩
          · rintro ⟨i, gi, hi, hgi, hkey⟩
            by_cases hin : i = n
            · subst hin
              rw [hgen] at hgi
              cases hgi
              rw [← hkey]
              exact Finset.mem_insert_self _ _
            · exact Finset.mem_insert_of_mem
                ((hkeys k).2 ⟨i, gi, by omega, hgi, hkey⟩)
  · refine ⟨s, ?_, h⟩
    simp only [tick, hc, if_false]

theorem inv_runInputs (rows cols : Nat) (inputs : List Input) :
    ∀ s : State, Inv rows cols s →
      ∃ t, runInputs rows cols inputs s = some t ∧ Inv rows cols t := by
  induction inputs with
  | nil =>
    intro s h
    exact ⟨s, rfl, h⟩
  | cons i rest ih =>
    intro s h
    have hstep : ∃ t, step rows cols s i = some t ∧ Inv rows cols t := by
      cases i with
      | event e => exact inv_handleEvent rows cols s e h
      | timer => exact inv_tick rows cols s h
    obtain ⟨t, ht, hinv⟩ := hstep
    obtain ⟨u, hu, huinv⟩ := ih t hinv
    exact ⟨u, by simp only [runInputs, ht, hu], huinv⟩

theorem inv_of_reachable (rows cols : Nat) (inputs : List Input) (s : State)
    (h : runInputs rows cols inputs (initState rows cols) = some s) : Inv rows cols s := by
  obtain ⟨t, ht, hinv⟩ := inv_runInputs rows cols inputs (initState rows cols)
    (inv_init rows cols)
  rw [h] at ht
  cases ht
  exact hinv

/-- C12: the dimensions of the grid never change: `updateGrid` on a grid of `rows ≥ 1` by
`cols` cells returns a grid of `rows` rows of `cols` cells each, every event (a paint
event among them) leaves a grid of `rows` by `cols` cells so, and the grid is `rows` by
`cols` in every state reached from the initial one. -/
theorem dimensions_invariant (rows cols : Nat) :
    (∀ g : Grid, Rect g rows cols → 0 < rows →
        ∃ next, updateGrid g = some next ∧ next.length = rows ∧
          ∀ row ∈ next, row.length = cols) ∧
      (∀ (s : State) (x y : Int), Rect s.filled rows cols →
        ∃ t, handleEvent rows cols s (Event.mouseMotion x y) = some t ∧
          t.filled.length = rows ∧ ∀ row ∈ t.filled, row.length = cols) ∧
      (∀ (s : State) (i : Input), Rect s.filled rows cols →
        ∃ t, step rows cols s i = some t ∧ Rect t.filled rows cols) ∧
      ∀ inputs : List Input,
        ∃ t, runInputs rows cols inputs (initState rows cols) = some t ∧
          t.filled.length = rows ∧ ∀ row ∈ t.filled, row.length = cols := by
  have hmotion : ∀ (s : State) (x y : Int), Rect s.filled rows cols →
      ∃ t, handleEvent rows cols s (Event.mouseMotion x y) = some t ∧
        Rect t.filled rows cols := by
    intro s x y hrect
    by_cases hc : s.mouseDown = true ∧ s.running = false
    · by_cases hin : 0 ≤ Int.tdiv y GRID_SPACING ∧ Int.tdiv y GRID_SPACING < (rows : Int) ∧
          0 ≤ Int.tdiv x GRID_SPACING ∧ Int.tdiv x GRID_SPACING < (cols : Int)
      · obtain ⟨g', hw, hrect', _, _⟩ := writeCell_rect s.filled rows cols hrect _ _ true hin
        refine ⟨{ s with filled := g' }, ?_, hrect'⟩
        simp only [handleEvent, hc, and_self, if_true, hin, hw, Option.map_some']
      · exact ⟨s, by simp only [handleEvent, hc, and_self, if_true, hin, if_false], hrect⟩
    · exact ⟨s, by simp only [handleEvent, hc, if_false], hrect⟩
  refine ⟨?_, ?_, ?_, ?_⟩
  · intro g hrect hpos
    exact ⟨_, updateGrid_rect g rows cols hrect hpos, tabulate_rect rows cols _⟩
  · intro s x y hrect
    obtain ⟨t, ht, hr⟩ := hmotion s x y hrect
    exact ⟨t, ht, hr⟩
  · intro s i hrect
    cases i with
    | timer =>
      by_cases hc : s.running = true ∧ s.stopped = false
      · obtain ⟨hrun, hstop⟩ := hc
        by_cases hmem : gridToString s.filled ∈ s.previousStates
        · exact ⟨_, tick_loop s hrun hstop hmem, hrect⟩
        · cases he : isEmpty s.filled with
          | true => exact ⟨_, tick_extinct s hrun hstop hmem he, hrect⟩
          | false =>
            have hpos := rows_pos_of_not_isEmpty s.filled rows cols hrect he
            exact ⟨_, tick_step s _ hrun hstop hmem he (updateGrid_rect s.filled rows cols hrect hpos),
              tabulate_rect rows cols _⟩
      · exact ⟨s, by simp only [step, tick, hc, if_false], hrect⟩
    | event e =>
      cases e with
      | quitEvent => exact ⟨_, rfl, hrect⟩
      | keyDown isReturn =>
        by_cases hc : isReturn = true ∧ s.running = false
        · exact ⟨{ s with running := true, output := s.output ++ [startedMsg] },
            by simp [step, handleEvent, hc], hrect⟩
        · exact ⟨s, by simp only [step, handleEvent, hc, if_false], hrect⟩
      | mouseButtonDown isLeft =>
        by_cases hc : isLeft = true ∧ s.running = false
        · exact ⟨{ s with mouseDown := true }, by simp [step, handleEvent, hc], hrect⟩
        · exact ⟨s, by simp only [step, handleEvent, hc, if_false], hrect⟩
      | mouseButtonUp isLeft =>
        cases isLeft with
        | true => exact ⟨{ s with mouseDown := false }, by simp [step, handleEvent], hrect⟩
        | false => exact ⟨s, by simp [step, handleEvent], hrect⟩
      | mouseMotion x y => exact hmotion s x y hrect
      | other => exact ⟨s, rfl, hrect⟩
  · intro inputs
    obtain ⟨t, ht, hinv⟩ := inv_runInputs rows cols inputs (initState rows cols)
      (inv_init rows cols)
    exact ⟨t, ht, hinv.1⟩

theorem dimensions_invariant_witness :
    Rect exampleBlinker 3 3 ∧ Rect examplePainting.filled 3 3 ∧
    (∃ next, updateGrid exampleBlinker = some next ∧ next.length = 3 ∧
      ∀ row ∈ next, row.length = 3) ∧
    (∃ t, handleEvent (3 : Nat) (3 : Nat) examplePainting (Event.mouseMotion 45 5) = some t ∧
      t.filled.length = 3 ∧ ∀ row ∈ t.filled, row.length = 3) ∧
    ∃ t, runInputs (3 : Nat) (3 : Nat)
        [Input.event (Event.mouseButtonDown true), Input.event (Event.mouseMotion 45 5),
         Input.event (Event.keyDown true), Input.timer] (initState 3 3) = some t ∧
      t.filled.length = 3 ∧ ∀ row ∈ t.filled, row.length = 3 :=
  ⟨by decide, by decide,
    (dimensions_invariant 3 3).1 exampleBlinker (by decide) (by decide),
    (dimensions_invariant 3 3).2.1 examplePainting 45 5 (by decide),
    (dimensions_invariant 3 3).2.2.2 _⟩

theorem step_of_stopped (rows cols : Int) (s : State) (i : Input) (hrun : s.running = true)
    (hstop : s.stopped = true) :
    ∃ t, step rows cols s i = some t ∧ t.filled = s.filled ∧
      t.previousStates = s.previousStates ∧ t.running = s.running ∧ t.stopped = s.stopped ∧
      t.output = s.output := by
  cases i with
  | timer => exact ⟨s, tick_of_stopped s hstop, rfl, rfl, rfl, rfl, rfl⟩
  | event e =>
    obtain ⟨t, ht, hf, htr, hts, hp, ho⟩ := handleEvent_running rows cols s e hrun
    exact ⟨t, ht, hf, hp, by rw [htr, hrun], hts, ho⟩

theorem runInputs_frozen (rows cols : Int) (inputs : List Input) :
    ∀ s : State, s.running = true → s.stopped = true →
      ∃ t, runInputs rows cols inputs s = some t ∧ t.filled = s.filled ∧
        t.previousStates = s.previousStates ∧ t.running = s.running ∧
        t.stopped = s.stopped ∧ t.output = s.output := by
  induction inputs with
  | nil =>
    intro s _ _
    exact ⟨s, rfl, rfl, rfl, rfl, rfl, rfl⟩
  | cons i rest ih =>
    intro s hrun hstop
    obtain ⟨t, ht, hf, hp, hr, hs, ho⟩ := step_of_stopped rows cols s i hrun hstop
    obtain ⟨u, hu, huf, hup, hur, hus, huo⟩ := ih t (by rw [hr, hrun]) (by rw [hs, hstop])
    exact ⟨u, by simp only [runInputs, ht, hu], by rw [huf, hf], by rw [hup, hp],
      by rw [hur, hr], by rw [hus, hs], by rw [huo, ho]⟩

/-- C13: in a state reached from the initial one in which `stopped` is true, no event
and no timer tick, and no sequence of them, changes the grid, the history, `running` or
`stopped`. -/
theorem stopped_is_frozen (rows cols : Nat) (inputs : List Input) (s : State)
    (hreach : runInputs rows cols inputs (initState rows cols) = some s)
    (hstop : s.stopped = true) :
    (∀ i : Input, ∃ t, step rows cols s i = some t ∧ t.filled = s.filled ∧
        t.previousStates = s.previousStates ∧ t.running = s.running ∧
        t.stopped = s.stopped) ∧
      ∀ more : List Input, ∃ t, runInputs rows cols more s = some t ∧ t.filled = s.filled ∧
        t.previousStates = s.previousStates ∧ t.running = s.running ∧
        t.stopped = s.stopped := by
  have hrun : s.running = true := (inv_of_reachable rows cols inputs s hreach).2.1 hstop
  constructor
  · intro i
    obtain ⟨t, ht, hf, hp, hr, hs, _⟩ := step_of_stopped rows cols s i hrun hstop
    exact ⟨t, ht, hf, hp, hr, hs⟩
  · intro more
    obtain ⟨t, ht, hf, hp, hr, hs, _⟩ := runInputs_frozen rows cols more s hrun hstop
    exact ⟨t, ht, hf, hp, hr, hs⟩

theorem exampleSession_run :
    runInputs (3 : Nat) (3 : Nat) exampleSession (initState 3 3) = some exampleStopped := by
  rfl

theorem stopped_is_frozen_witness :
    runInputs (3 : Nat) (3 : Nat) exampleSession (initState 3 3) = some exampleStopped ∧
    (∀ i : Input, ∃ t, step (3 : Nat) (3 : Nat) exampleStopped i = some t ∧
        t.filled = exampleStopped.filled ∧
        t.previousStates = exampleStopped.previousStates ∧
        t.running = exampleStopped.running ∧ t.stopped = exampleStopped.stopped) ∧
      ∀ more : List Input, ∃ t, runInputs (3 : Nat) (3 : Nat) more exampleStopped = some t ∧
        t.filled = exampleStopped.filled ∧
        t.previousStates = exampleStopped.previousStates ∧
        t.running = exampleStopped.running ∧ t.stopped = exampleStopped.stopped :=
  ⟨exampleSession_run, stopped_is_frozen 3 3 exampleSession exampleStopped exampleSession_run rfl⟩

theorem step_flags (rows cols : Int) (s t : State) (i : Input)
    (h : step rows cols s i = some t) :
    (s.running = true → t.running = true) ∧ (s.stopped = true → t.stopped = true) ∧
      ((s.stopped = true → s.running = true) → t.stopped = true → t.running = true) := by
  cases i with
  | timer =>
    simp only [step, tick] at h
    split at h
    · rename_i hc
      split at h
      · cases h
        exact ⟨id, fun _ => rfl, fun _ _ => hc.1⟩
      · split at h
        · cases h
          exact ⟨id, fun _ => rfl, fun _ _ => hc.1⟩
        · split at h
          · cases h
          · cases h
            exact ⟨id, id, fun _ _ => hc.1⟩
    · cases h
      exact ⟨id, id, id⟩
  | event e =>
    cases e with
    | quitEvent =>
      cases h
      exact ⟨id, id, id⟩
    | keyDown isReturn =>
      simp only [step, handleEvent] at h
      split at h
      · cases h
        exact ⟨fun _ => rfl, id, fun _ _ => rfl⟩
      · cases h
        exact ⟨id, id, id⟩
    | mouseButtonDown isLeft =>
      simp only [step, handleEvent] at h
      split at h <;> cases h <;> exact ⟨id, id, id⟩
    | mouseButtonUp isLeft =>
      simp only [step, handleEvent] at h
      split at h <;> cases h <;> exact ⟨id, id, id⟩
    | mouseMotion x y =>
      simp only [step, handleEvent] at h
      split at h
      · split at h
        · cases hw : writeCell s.filled (Int.tdiv y GRID_SPACING) (Int.tdiv x GRID_SPACING) true with
          | none => simp [hw] at h
          | some g' =>
            simp only [hw, Option.map_some', Option.some.injEq] at h
            subst h
            exact ⟨id, id, id⟩
        · cases h
          exact ⟨id, id, id⟩
      · cases h
        exact ⟨id, id, id⟩
    | other =>
      cases h
      exact ⟨id, id, id⟩

/-- C14: every event and every timer tick keeps `running` true once it is true and keeps
`stopped` true once it is true, in every state (and on a grid of `rows` by `cols` cells
the event or tick does return a state); and in every state reached from the initial one
`stopped` is true only if `running` is. -/
theorem running_and_stopped_are_final (rows cols : Nat) :
    (∀ (s t : State) (i : Input), step rows cols s i = some t →
        (s.running = true → t.running = true) ∧ (s.stopped = true → t.stopped = true)) ∧
      (∀ (s : State) (i : Input), Rect s.filled rows cols →
        ∃ t, step rows cols s i = some t ∧
          (s.running = true → t.running = true) ∧ (s.stopped = true → t.stopped = true)) ∧
      ∀ (inputs : List Input) (s : State),
        runInputs rows cols inputs (initState rows cols) = some s →
        (s.stopped = true → s.running = true) ∧
        ∀ more : List Input, ∃ t, runInputs rows cols more s = some t ∧
          (s.running = true → t.running = true) ∧ (s.stopped = true → t.stopped = true) := by
  refine ⟨?_, ?_, ?_⟩
  · intro s t i h
    have := step_flags rows cols s t i h
    exact ⟨this.1, this.2.1⟩
  · intro s i hrect
    have hdef : ∃ t, step rows cols s i = some t := by
      cases i with
      | timer =>
        by_cases hc : s.running = true ∧ s.stopped = false
        · obtain ⟨hrun, hstop⟩ := hc
          by_cases hmem : gridToString s.filled ∈ s.previousStates
          · exact ⟨_, tick_loop s hrun hstop hmem⟩
          · cases he : isEmpty s.filled with
            | true => exact ⟨_, tick_extinct s hrun hstop hmem he⟩
            | false =>
              have hpos := rows_pos_of_not_isEmpty s.filled rows cols hrect he
              exact ⟨_, tick_step s _ hrun hstop hmem he
                (updateGrid_rect s.filled rows cols hrect hpos)⟩
        · exact ⟨s, by simp only [step, tick, hc, if_false]⟩
      | event e =>
        cases e with
        | quitEvent => exact ⟨_, rfl⟩
        | keyDown isReturn =>
          simp only [step, handleEvent]
          split <;> exact ⟨_, rfl⟩
        | mouseButtonDown isLeft =>
          simp only [step, handleEvent]
          split <;> exact ⟨_, rfl⟩
        | mouseButtonUp isLeft =>
          simp only [step, handleEvent]
          split <;> exact ⟨_, rfl⟩
        | mouseMotion x y =>
          simp only [step, handleEvent]
          split
          · split
            · rename_i hin
              obtain ⟨g', hw, _⟩ := writeCell_rect s.filled rows cols hrect _ _ true hin
              exact ⟨_, by rw [hw]; rfl⟩
            · exact ⟨_, rfl⟩
          · exact ⟨_, rfl⟩
        | other => exact ⟨_, rfl⟩
    obtain ⟨t, ht⟩ := hdef
    have := step_flags rows cols s t i ht
    exact ⟨t, ht, this.1, this.2.1⟩
  · intro inputs s hreach
    have hinv := inv_of_reachable rows cols inputs s hreach
    refine ⟨hinv.2.1, ?_⟩
    intro more
    obtain ⟨t, ht, _⟩ := inv_runInputs rows cols more s hinv
    refine ⟨t, ht, ?_⟩
    clear hreach hinv
    induction more generalizing s with
    | nil =>
      cases ht
      exact ⟨id, id⟩
    | cons i rest ih =>
      simp only [runInputs] at ht
      cases hs : step rows cols s i with
      | none => simp [hs] at ht
      | some u =>
        simp only [hs] at ht
        have h1 := step_flags rows cols s u i hs
        have h2 := ih u ht
        exact ⟨fun h => h2.1 (h1.1 h), fun h => h2.2 (h1.2.1 h)⟩

theorem running_and_stopped_are_final_witness :
    Rect exampleRunning.filled 3 3 ∧
    (∃ t, step (3 : Nat) (3 : Nat) exampleRunning (Input.event (Event.keyDown true)) = some t ∧
      (exampleRunning.running = true → t.running = true) ∧
      (exampleRunning.stopped = true → t.stopped = true)) ∧
    (exampleStopped.stopped = true → exampleStopped.running = true) ∧
    ∀ more : List Input, ∃ t, runInputs (3 : Nat) (3 : Nat) more exampleStopped = some t ∧
      (exampleStopped.running = true → t.running = true) ∧
      (exampleStopped.stopped = true → t.stopped = true) :=
  ⟨by decide,
    (running_and_stopped_are_final 3 3).2.1 exampleRunning (Input.event (Event.keyDown true))
      (by decide),
    (running_and_stopped_are_final 3 3).2.2 exampleSession exampleStopped exampleSession_run⟩

/-- C18: while editing with the button held, a mouse-motion event at any pixel `(x, y)`
returns a state (no access is outside a grid of `rows` by `cols` cells); with
`row = y / 20` and `col = x / 20` by truncating division it sets cell `(row, col)` live
and leaves every other cell as it was when `(row, col)` is in range, and leaves the grid
unchanged otherwise; no live cell becomes dead, history and flags are unchanged; and a
timer tick while editing changes nothing. -/
theorem paint_sets_one_cell (rows cols : Nat) (s : State) (hrect : Rect s.filled rows cols)
    (hedit : s.running = false) (hdown : s.mouseDown = true) (x y : Int) :
    (∃ t, handleEvent rows cols s (Event.mouseMotion x y) = some t ∧
        Rect t.filled rows cols ∧ t.previousStates = s.previousStates ∧
        t.running = false ∧ t.stopped = s.stopped ∧ t.mouseDown = true ∧
        ((0 ≤ Int.tdiv y 20 ∧ Int.tdiv y 20 < rows ∧ 0 ≤ Int.tdiv x 20 ∧ Int.tdiv x 20 < cols) →
          readCell t.filled (Int.tdiv y 20) (Int.tdiv x 20) = some true ∧
          ∀ r c : Int, ¬ (r = Int.tdiv y 20 ∧ c = Int.tdiv x 20) →
            readCell t.filled r c = readCell s.filled r c) ∧
        (¬ (0 ≤ Int.tdiv y 20 ∧ Int.tdiv y 20 < rows ∧ 0 ≤ Int.tdiv x 20 ∧
              Int.tdiv x 20 < cols) → t.filled = s.filled) ∧
        ∀ r c : Int, readCell s.filled r c = some true → readCell t.filled r c = some true) ∧
      tick s = some s := by
  constructor
  · by_cases hin : 0 ≤ Int.tdiv y 20 ∧ Int.tdiv y 20 < (rows : Int) ∧ 0 ≤ Int.tdiv x 20 ∧
        Int.tdiv x 20 < (cols : Int)
    · obtain ⟨g', hw, hrect', hset, hother⟩ :=
        writeCell_rect s.filled rows cols hrect _ _ true hin
      refine ⟨{ s with filled := g' }, ?_, hrect', rfl, hedit, rfl, hdown,
        fun _ => ⟨hset, hother⟩, fun hcon => absurd hin hcon, ?_⟩
      · simp only [handleEvent, hdown, hedit, and_self, if_true, GRID_SPACING, hin, hw,
          Option.map_some']
      · intro r c hlive
        by_cases hrc : r = Int.tdiv y 20 ∧ c = Int.tdiv x 20
        · rw [hrc.1, hrc.2]
          exact hset
        · show readCell g' r c = some true
          rw [hother r c hrc]
          exact hlive
    · refine ⟨s, ?_, hrect, rfl, hedit, rfl, hdown, fun h => absurd h hin, fun _ => rfl,
        fun _ _ h => h⟩
      simp only [handleEvent, hdown, hedit, and_self, if_true, GRID_SPACING, hin, if_false]
  · simp [tick, hedit]

theorem paint_sets_one_cell_witness :
    Rect examplePainting.filled 3 3 ∧ Int.tdiv (-5) 20 = 0 ∧ Int.tdiv 45 20 = 2 ∧
    handleEvent (3 : Nat) (3 : Nat) examplePainting (Event.mouseMotion (-5) 45) =
      some { examplePainting with
        filled := [[false, false, false], [true, true, true], [true, false, false]] } ∧
    handleEvent (3 : Nat) (3 : Nat) examplePainting (Event.mouseMotion (-25) 45) =
      some examplePainting ∧
    ((∃ t, handleEvent (3 : Nat) (3 : Nat) examplePainting (Event.mouseMotion (-5) 45) = some t ∧
        Rect t.filled 3 3 ∧ t.previousStates = examplePainting.previousStates ∧
        t.running = false ∧ t.stopped = examplePainting.stopped ∧ t.mouseDown = true ∧
        ((0 ≤ Int.tdiv 45 20 ∧ Int.tdiv 45 20 < ((3 : Nat) : Int) ∧ 0 ≤ Int.tdiv (-5) 20 ∧
            Int.tdiv (-5) 20 < ((3 : Nat) : Int)) →
          readCell t.filled (Int.tdiv 45 20) (Int.tdiv (-5) 20) = some true ∧
          ∀ r c : Int, ¬ (r = Int.tdiv 45 20 ∧ c = Int.tdiv (-5) 20) →
            readCell t.filled r c = readCell examplePainting.filled r c) ∧
        (¬ (0 ≤ Int.tdiv 45 20 ∧ Int.tdiv 45 20 < ((3 : Nat) : Int) ∧ 0 ≤ Int.tdiv (-5) 20 ∧
              Int.tdiv (-5) 20 < ((3 : Nat) : Int)) → t.filled = examplePainting.filled) ∧
        ∀ r c : Int, readCell examplePainting.filled r c = some true →
          readCell t.filled r c = some true) ∧
      tick examplePainting = some examplePainting) :=
  ⟨by decide, by decide, by decide, rfl, rfl,
    paint_sets_one_cell 3 3 examplePainting (by decide) rfl rfl (-5) 45⟩

theorem exampleExtinctSession_run :
    runInputs (3 : Nat) (3 : Nat) exampleExtinctSession (initState 3 3) = some exampleExtinct := by
  rfl

/-- C19: in every state reached from the initial one, the history holds the key of no
grid without live cells, and holds exactly the keys of the generations stepped so far
(the grid being the next generation); so a tick that examines a grid with no live cell
stops the run through the extinction branch, never the loop branch. -/
theorem history_has_no_dead_key (rows cols : Nat) (inputs : List Input) (s : State)
    (hreach : runInputs rows cols inputs (initState rows cols) = some s) :
    (∀ g : Grid, isEmpty g = true → gridToString g ∉ s.previousStates) ∧
      (∃ g0 n, generation g0 n = some s.filled ∧
        ∀ k, k ∈ s.previousStates ↔
          ∃ i gi, i < n ∧ generation g0 i = some gi ∧ gridToString gi = k) ∧
      (s.running = true → s.stopped = false → isEmpty s.filled = true →
        ∃ t, tick s = some t ∧ t.stopped = true ∧ t.output = s.output ++ [emptyMsg] ∧
          t.output ≠ s.output ++ [loopMsg] ∧ t.filled = s.filled ∧
          t.previousStates = s.previousStates) := by
  obtain ⟨_, _, _, hkeys, hgen⟩ := inv_of_reachable rows cols inputs s hreach
  have hdead : ∀ g : Grid, isEmpty g = true → gridToString g ∉ s.previousStates := by
    intro g hg hmem
    have h1 := (one_mem_key_iff g).1 (hkeys _ hmem)
    rw [hg] at h1
    cases h1
  refine ⟨hdead, hgen, ?_⟩
  intro hrun hstop he
  exact ⟨_, tick_extinct s hrun hstop (hdead s.filled he) he, rfl, rfl,
    loopMsg_ne_emptyMsg s.output, rfl, rfl⟩

theorem history_has_no_dead_key_witness :
    runInputs (3 : Nat) (3 : Nat) exampleExtinctSession (initState 3 3) = some exampleExtinct ∧
    isEmpty exampleExtinct.filled = true ∧
    (∀ g : Grid, isEmpty g = true → gridToString g ∉ exampleExtinct.previousStates) ∧
      (∃ g0 n, generation g0 n = some exampleExtinct.filled ∧
        ∀ k, k ∈ exampleExtinct.previousStates ↔
          ∃ i gi, i < n ∧ generation g0 i = some gi ∧ gridToString gi = k) ∧
      (exampleExtinct.running = true → exampleExtinct.stopped = false →
        isEmpty exampleExtinct.filled = true →
        ∃ t, tick exampleExtinct = some t ∧ t.stopped = true ∧
          t.output = exampleExtinct.output ++ [emptyMsg] ∧
          t.output ≠ exampleExtinct.output ++ [loopMsg] ∧ t.filled = exampleExtinct.filled ∧
          t.previousStates = exampleExtinct.previousStates) :=
  ⟨exampleExtinctSession_run, by decide,
    history_has_no_dead_key 3 3 exampleExtinctSession exampleExtinct exampleExtinctSession_run⟩

end GameOfLife
